import Mathlib

/-!
# The Pattern controller (`controllers/pattern_controller.go`)

A shallow embedding of the reconciliation loop of the patterns operator and the
properties of its specification.

* Go strings are Lean strings; `strings.HasPrefix` and `strings.Split` (with a
  one-character separator) are defined structurally on the character list.
* A Go `error` is `Option String`: `none` is `nil`, `some m` an error whose
  `Error()` is `m`.
* The cluster and the package-level helpers that live in other files of the
  repository (`getSubscription`, `updateApplication`, `ownedBySame`, ...) are the
  fields of `PatternReconciler`: for each call, the answer the code receives.
* Every call that leaves the process is recorded, in order, in `Run.calls`;
  `Run.ret` is `none` when the Go code stops in a run-time panic (index out of
  range, nil dereference).
-/

namespace PatternController

/-! ## Strings -/

/-- Go `strings.HasPrefix(s, pre)`. -/
def hasPrefix (s pre : String) : Bool := pre.data.isPrefixOf s.data

/-- Go `strings.Split` on the characters of a string, for a separator of one character. -/
def splitChars (sep : Char) : List Char → List (List Char)
  | [] => [[]]
  | c :: cs =>
    if c = sep then [] :: splitChars sep cs
    else
      match splitChars sep cs with
      | [] => [[c]]
      | seg :: rest => (c :: seg) :: rest

/-- Go `strings.Split(s, sep)` for a separator of one character. -/
def split (s : String) (sep : Char) : List String :=
  (splitChars sep s.data).map String.mk

/-- The verb `%q` of `fmt` on an object name: Kubernetes names are DNS labels, which need no
escaping, so the name is wrapped in double quotes. -/
def quote (s : String) : String := "\"" ++ s ++ "\""

/-! ## Data model -/

/-- A Go `error`: `none` is `nil`, `some m` has `Error() = m`. -/
abbrev GoError := Option String

/-- A Go `time.Duration`, in nanoseconds. -/
abbrev Duration := Int

/-- Go `time.Minute`. -/
def Minute : Duration := 60000000000

/-- The `metav1.OwnerReference` of an owned object. -/
structure OwnerReference where
  APIVersion : String
  Kind : String
  Name : String
  UID : String
  deriving DecidableEq, Repr

/-- The part of `metav1.ObjectMeta` the controller reads. `DeletionTimestamp` is a pointer to a
time, counted from the zero instant. -/
structure ObjectMeta where
  Name : String
  Namespace : String
  UID : String
  DeletionTimestamp : Option Nat
  Finalizers : List String
  deriving DecidableEq, Repr

/-- The Git part of a Pattern's spec (`api.GitConfig`). -/
structure GitConfig where
  TargetRepo : String
  TargetRevision : String
  Hostname : String
  ValuesDirectoryURL : String
  deriving DecidableEq, Repr

/-- The GitOps part of a Pattern's spec (`api.GitOpsConfig`). -/
structure GitOpsConfig where
  OperatorChannel : String
  OperatorSource : String
  OperatorCSV : String
  deriving DecidableEq, Repr

/-- The spec of a Pattern (`api.PatternSpec`); `GitOpsConfig` is a pointer. -/
structure PatternSpec where
  ClusterGroupName : String
  GitConfig : GitConfig
  GitOpsConfig : Option GitOpsConfig
  deriving DecidableEq, Repr

/-- The status of a Pattern (`api.PatternStatus`). -/
structure PatternStatus where
  LastStep : String
  LastError : String
  Version : Int
  ClusterName : String
  ClusterPlatform : String
  ClusterDomain : String
  ClusterID : String
  deriving DecidableEq, Repr

/-- The custom resource (`api.Pattern`). -/
structure Pattern where
  ObjectMeta : ObjectMeta
  Spec : PatternSpec
  Status : PatternStatus
  deriving DecidableEq, Repr

/-- An operator subscription, target or observed. -/
structure Subscription where
  Name : String
  Namespace : String
  Channel : String
  Source : String
  StartingCSV : String
  OwnerReferences : List OwnerReference
  deriving DecidableEq, Repr

/-- A GitOps Application, target or observed; `SyncStatus` is `Status.Sync.Status`. -/
structure Application where
  Name : String
  Namespace : String
  RepoURL : String
  TargetRevision : String
  OwnerReferences : List OwnerReference
  SyncStatus : String
  deriving DecidableEq, Repr

/-- The constant `argoapi.SyncStatusCodeOutOfSync`. -/
def SyncStatusCodeOutOfSync : String := "OutOfSync"

/-- The constant `metav1.FinalizerOrphanDependents`. -/
def FinalizerOrphanDependents : String := "orphan"

/-- A `ctrl.Request`: the namespaced name of the Pattern to reconcile. -/
structure Request where
  Namespace : String
  Name : String
  deriving DecidableEq, Repr

/-- A `reconcile.Result`. -/
structure Result where
  Requeue : Bool := false
  RequeueAfter : Duration := 0
  deriving DecidableEq, Repr

/-- What `r.Client.Get` answers: the object, a not-found error (`kerrors.IsNotFound`), or another
error. -/
inductive GetResult where
  | found (p : Pattern)
  | notFound (e : String)
  | failed (e : String)
  deriving DecidableEq, Repr

/-- Go `(*metav1.Time).IsZero`: a nil pointer or the zero instant. -/
def IsZero (t : Option Nat) : Bool :=
  match t with
  | none => true
  | some n => n == 0

/-- Go addition and the like on `int` (64 bits, two's complement): the value wrapped into
`[-2^63, 2^63)`. -/
def wrapInt64 (n : Int) : Int := (n + 2 ^ 63) % 2 ^ 64 - 2 ^ 63

/-- The helper `controllerutil.ContainsFinalizer`. -/
def ContainsFinalizer (p : Pattern) (finalizer : String) : Bool :=
  p.ObjectMeta.Finalizers.any (fun f => f == finalizer)

/-- The helper `controllerutil.AddFinalizer`: appends the finalizer unless it is there already. -/
def AddFinalizer (p : Pattern) (finalizer : String) : Pattern :=
  if ContainsFinalizer p finalizer then p
  else { p with ObjectMeta := { p.ObjectMeta with Finalizers := p.ObjectMeta.Finalizers ++ [finalizer] } }

/-- The helper `controllerutil.RemoveFinalizer`: drops every occurrence of the finalizer. -/
def RemoveFinalizer (p : Pattern) (finalizer : String) : Pattern :=
  { p with ObjectMeta :=
      { p.ObjectMeta with Finalizers := p.ObjectMeta.Finalizers.filter (fun f => !(f == finalizer)) } }

/-! ## External calls -/

/-- A call that leaves the process, with its arguments. -/
inductive Call where
  | clientGet (req : Request)
  | clientUpdate (p : Pattern)
  | statusUpdate (p : Pattern)
  | getClusterVersion
  | getInfrastructure
  | getIngress
  | getSubscription (name ns : String)
  | createSubscription (target : Subscription)
  | updateSubscription (target observed : Subscription)
  | haveNamespace (name : String)
  | getApplication (name : String)
  | createApplication (target : Application)
  | updateApplication (target observed : Application)
  | removeApplication (name : String)
  | haveACMHub
  deriving DecidableEq, Repr

/-- The result of running a piece of the controller: the calls it issued, in order, and the value
it returned, `none` when it stopped in a run-time panic. -/
structure Run (α : Type) where
  calls : List Call
  ret : Option α

/-- Returning a value issues no call. -/
def Run.pure {α : Type} (a : α) : Run α := ⟨[], some a⟩

/-- Sequencing: the calls of both parts, unless the first one panicked. -/
def Run.bind {α β : Type} (m : Run α) (f : α → Run β) : Run β :=
  match m.ret with
  | none => ⟨m.calls, none⟩
  | some a => ⟨m.calls ++ (f a).calls, (f a).ret⟩

instance : Monad Run where
  pure := Run.pure
  bind := Run.bind

/-- A run-time panic. -/
def fault {α : Type} : Run α := ⟨[], none⟩

/-- The reconciler `r` with its clients, and the helpers and constants of the package that are
defined in other files: for every external call, what it answers. A helper returning
`(error, *T)` answers a pair. -/
structure PatternReconciler where
  PatternFinalizer : String
  applicationNamespace : String
  clientGet : Request → GetResult
  clientUpdate : Pattern → GoError
  statusUpdate : Pattern → GoError
  clusterVersionID : Except String String
  infrastructurePlatform : Except String String
  ingressDomain : Except String String
  newSubscription : Pattern → Subscription
  setOwnerReferenceSub : Pattern → Subscription → Subscription
  getSubscription : String → String → GoError × Option Subscription
  createSubscription : Subscription → GoError
  updateSubscription : Subscription → Subscription → GoError × Bool
  ownedBySameSub : Subscription → Subscription → Bool
  haveNamespace : String → Bool
  newApplication : Pattern → Application
  setOwnerReferenceApp : Pattern → Application → Application
  applicationName : Pattern → String
  getApplication : String → GoError × Option Application
  createApplication : Application → GoError
  updateApplication : Application → Application → GoError × Bool
  ownedBySameApp : Application → Application → Bool
  removeApplication : String → GoError
  haveACMHub : Bool

/-- Issue a call and hand back its answer. -/
def call {α : Type} (c : Call) (answer : α) : Run α := ⟨[c], some answer⟩

/-! ## The controller -/

/-- The status a step's outcome is written into (`onReconcileErrorWithRequeue`, the assignments
to `p.Status.LastStep` and `p.Status.LastError`). -/
def setOutcome (p : Pattern) (reason : String) (err : GoError) : Pattern :=
  match err with
  | some e => { p with Status := { p.Status with LastStep := reason, LastError := e } }
  | none => { p with Status := { p.Status with LastStep := reason, LastError := "" } }

/-- The method `onReconcileErrorWithRequeue`. -/
def onReconcileErrorWithRequeue (r : PatternReconciler) (p : Pattern) (reason : String)
    (err : GoError) (duration : Option Duration) : Run (Result × GoError) := do
  let p := setOutcome p reason err
  let updateErr ← call (.statusUpdate p) (r.statusUpdate p)
  match updateErr with
  | some e => return ({}, some e)
  | none =>
    match duration with
    | some d => return ({ RequeueAfter := d }, err)
    | none => return ({}, err)

/-- The method `actionPerformed`. -/
def actionPerformed (r : PatternReconciler) (p : Pattern) (reason : String) (err : GoError) :
    Run (Result × GoError) :=
  if err.isSome then
    onReconcileErrorWithRequeue r p reason err (some (Minute * 1))
  else if !IsZero p.ObjectMeta.DeletionTimestamp then
    onReconcileErrorWithRequeue r p reason err (some (Minute * 2))
  else
    onReconcileErrorWithRequeue r p reason err none

/-- The method `preValidation`. -/
def preValidation (input : Pattern) : GoError :=
  if hasPrefix input.Spec.GitConfig.TargetRepo "git@" then
    some ("Invalid TargetRepo: " ++ input.Spec.GitConfig.TargetRepo)
  else if hasPrefix input.Spec.GitConfig.TargetRepo "https://"
      || hasPrefix input.Spec.GitConfig.TargetRepo "http://" then
    none
  else
    some ("TargetRepo must be either http/https: " ++ input.Spec.GitConfig.TargetRepo)

/-- The method `postValidation`. -/
def postValidation (_input : Pattern) : GoError := none

/-- The assignments `output.Status.ClusterName = ss[1]` and `output.Status.ClusterDomain`
of `applyDefaults`, with `ss` the labels of the ingress domain; `none` when `ss[1]` is out of
range. -/
def setClusterNames (output : Pattern) (domain : String) : Option Pattern :=
  match (split domain '.')[1]? with
  | none => none
  | some clusterName =>
    some { output with
      Status := { output.Status with ClusterName := clusterName, ClusterDomain := domain } }

/-- Defaulting of `Spec.GitConfig.TargetRevision` in `applyDefaults`. -/
def defaultTargetRevision (output : Pattern) : Pattern :=
  if output.Spec.GitConfig.TargetRevision = "" then
    { output with Spec := { output.Spec with
        GitConfig := { output.Spec.GitConfig with TargetRevision := "main" } } }
  else output

/-- Defaulting of `Spec.GitConfig.Hostname` in `applyDefaults`: `ss[2]` of the target repository
split on `/`; `none` when `ss[2]` is out of range. -/
def defaultHostname (output : Pattern) : Option Pattern :=
  if output.Spec.GitConfig.Hostname = "" then
    match (split output.Spec.GitConfig.TargetRepo '/')[2]? with
    | none => none
    | some host =>
      some { output with Spec := { output.Spec with
        GitConfig := { output.Spec.GitConfig with Hostname := host } } }
  else some output

/-- Defaulting of `Spec.GitOpsConfig` in `applyDefaults`: a nil configuration becomes an empty
one, then each empty field takes its constant. -/
def defaultGitOpsConfig (output : Pattern) : Pattern :=
  let gitops : GitOpsConfig :=
    match output.Spec.GitOpsConfig with
    | none => { OperatorChannel := "", OperatorSource := "", OperatorCSV := "" }
    | some c => c
  let gitops :=
    if gitops.OperatorChannel = "" then { gitops with OperatorChannel := "stable" } else gitops
  let gitops :=
    if gitops.OperatorSource = "" then { gitops with OperatorSource := "redhat-operators" }
    else gitops
  let gitops :=
    if gitops.OperatorCSV = "" then { gitops with OperatorCSV := "v1.4.0" } else gitops
  { output with Spec := { output.Spec with GitOpsConfig := some gitops } }

/-- Defaulting of `Spec.ClusterGroupName` in `applyDefaults`. -/
def defaultClusterGroupName (output : Pattern) : Pattern :=
  if output.Spec.ClusterGroupName = "" then
    { output with Spec := { output.Spec with ClusterGroupName := "default" } }
  else output

/-- The part of `applyDefaults` that follows the three metadata reads, in the order of the source;
`none` when one of the two index expressions panics. -/
def fillDefaults (output : Pattern) (domain : String) : Option Pattern :=
  match setClusterNames output domain with
  | none => none
  | some output =>
    match defaultHostname (defaultTargetRevision output) with
    | none => none
    | some output => some (defaultClusterGroupName (defaultGitOpsConfig output))

/-- The method `applyDefaults`: the error and the qualified copy. Indexing the labels of the
ingress domain (`ss[1]`) and the segments of the target repository (`ss[2]`) panics when out of
range. -/
def applyDefaults (r : PatternReconciler) (input : Pattern) : Run (GoError × Pattern) := do
  let output := input
  match ← call .getClusterVersion r.clusterVersionID with
  | .error e => return (some e, output)
  | .ok clusterID =>
    let output := { output with Status := { output.Status with ClusterID := clusterID } }
    match ← call .getInfrastructure r.infrastructurePlatform with
    | .error e => return (some e, output)
    | .ok platform =>
      let output := { output with Status := { output.Status with ClusterPlatform := platform } }
      match ← call .getIngress r.ingressDomain with
      | .error e => return (some e, output)
      | .ok domain =>
        match fillDefaults output domain with
        | none => fault
        | some output => return (none, output)

/-- The part of `finalizeObject` that follows defaulting, for the qualified Pattern: look the
Application up and remove it. When the Application is not found, the log line reads `app.Name`
through the nil pointer and panics. -/
def finalizeApplication (r : PatternReconciler) (qualifiedInstance : Pattern) : Run GoError := do
  let targetApp := r.setOwnerReferenceApp qualifiedInstance (r.newApplication qualifiedInstance)
  let (_, app) ← call (.getApplication (r.applicationName qualifiedInstance))
    (r.getApplication (r.applicationName qualifiedInstance))
  match app with
  | none => fault
  | some app =>
    if !r.ownedBySameApp targetApp app then
      return none
    else
      let (_, changed) ← call (.updateApplication targetApp app)
        (r.updateApplication targetApp app)
      if changed then
        return some ("updated application " ++ quote app.Name ++ " for removal\n")
      else if ← call .haveACMHub r.haveACMHub then
        return some "waiting for removal of that acm hub"
      else if app.SyncStatus = SyncStatusCodeOutOfSync then
        return some ("application " ++ quote app.Name ++ " is still " ++ SyncStatusCodeOutOfSync)
      else
        match ← call (.removeApplication app.Name) (r.removeApplication app.Name) with
        | some e => return some e
        | none => return some ("waiting for application " ++ quote app.Name ++ " to be removed\n")

/-- The method `finalizeObject`. -/
def finalizeObject (r : PatternReconciler) (inst : Pattern) : Run GoError := do
  if ContainsFinalizer inst r.PatternFinalizer
      || ContainsFinalizer inst FinalizerOrphanDependents then
    let (err, qualifiedInstance) ← applyDefaults r inst
    if err.isSome then
      return none
    else
      finalizeApplication r qualifiedInstance
  else
    return none

/-- The section "ArgoCD Application" of `Reconcile`, to the end of the method, for the qualified
Pattern. The log line "App not found" calls `Error()` on the error of `getApplication` and
panics when that error is nil. -/
def reconcileApplication (r : PatternReconciler) (qualifiedInstance : Pattern) :
    Run (Result × GoError) := do
  let targetApp := r.setOwnerReferenceApp qualifiedInstance (r.newApplication qualifiedInstance)
  let (err, app) ← call (.getApplication (r.applicationName qualifiedInstance))
    (r.getApplication (r.applicationName qualifiedInstance))
  match app with
  | none =>
    match err with
    | none => fault
    | some _ =>
      let err ← call (.createApplication targetApp) (r.createApplication targetApp)
      actionPerformed r qualifiedInstance "create application" err
  | some app =>
    if r.ownedBySameApp targetApp app then
      let (err, changed) ← call (.updateApplication targetApp app)
        (r.updateApplication targetApp app)
      if changed then
        let qualifiedInstance :=
          if err.isSome then
            { qualifiedInstance with Status := { qualifiedInstance.Status with
                Version := wrapInt64 (1 + qualifiedInstance.Status.Version) } }
          else qualifiedInstance
        actionPerformed r qualifiedInstance "updated application" err
      else
        match postValidation qualifiedInstance with
        | some e => actionPerformed r qualifiedInstance "validation" (some e)
        | none => return ({}, none)
    else
      actionPerformed r qualifiedInstance "create application"
        (some ("We no longer own Application " ++ quote targetApp.Name))

/-- The section "GitOps Namespace" of `Reconcile`, and what follows it. -/
def reconcileNamespace (r : PatternReconciler) (qualifiedInstance : Pattern) :
    Run (Result × GoError) := do
  if !(← call (.haveNamespace r.applicationNamespace) (r.haveNamespace r.applicationNamespace)) then
    actionPerformed r qualifiedInstance "check application namespace" (some "waiting for creation")
  else
    reconcileApplication r qualifiedInstance

/-- The section "GitOps Subscription" of `Reconcile`, and what follows it. -/
def reconcileSubscription (r : PatternReconciler) (qualifiedInstance : Pattern) :
    Run (Result × GoError) := do
  let targetSub := r.setOwnerReferenceSub qualifiedInstance (r.newSubscription qualifiedInstance)
  let (_, sub) ← call (.getSubscription targetSub.Name targetSub.Namespace)
    (r.getSubscription targetSub.Name targetSub.Namespace)
  match sub with
  | none =>
    let err ← call (.createSubscription targetSub) (r.createSubscription targetSub)
    actionPerformed r qualifiedInstance "create gitops subscription" err
  | some sub =>
    if r.ownedBySameSub targetSub sub then
      let (err, changed) ← call (.updateSubscription targetSub sub)
        (r.updateSubscription targetSub sub)
      if changed then
        actionPerformed r qualifiedInstance "update gitops subscription" err
      else
        reconcileNamespace r qualifiedInstance
    else
      reconcileNamespace r qualifiedInstance

/-- The convergence pipeline of `Reconcile`, from "Fill in defaults" on: what a Pattern that is
not being deleted and carries the finalizer falls through to. -/
def convergence (r : PatternReconciler) (inst : Pattern) : Run (Result × GoError) := do
  let (err, qualifiedInstance) ← applyDefaults r inst
  if err.isSome then
    actionPerformed r qualifiedInstance "applying defaults" err
  else
    match preValidation qualifiedInstance with
    | some e => actionPerformed r qualifiedInstance "prerequisite validation" (some e)
    | none => reconcileSubscription r qualifiedInstance

/-- The method `Reconcile`. On the path that removes the finalizer, the log line of a failed
write calls `Error()` on the `err` of the enclosing `if`, which is nil in that branch, and
panics. -/
def Reconcile (r : PatternReconciler) (req : Request) : Run (Result × GoError) := do
  match ← call (.clientGet req) (r.clientGet req) with
  | .notFound _ => return ({}, none)
  | .failed e => return ({}, some e)
  | .found inst =>
    if IsZero inst.ObjectMeta.DeletionTimestamp then
      if !ContainsFinalizer inst r.PatternFinalizer then
        let inst := AddFinalizer inst r.PatternFinalizer
        let err ← call (.clientUpdate inst) (r.clientUpdate inst)
        actionPerformed r inst "updated finalizer" err
      else
        convergence r inst
    else
      match ← finalizeObject r inst with
      | some err => actionPerformed r inst "finalize" (some err)
      | none =>
        let inst := RemoveFinalizer inst r.PatternFinalizer
        match ← call (.statusUpdate inst) (r.statusUpdate inst) with
        | some _ => fault
        | none => return ({}, none)

/-! ## A concrete cluster for the examples -/

/-- The owner reference `controllerutil.SetOwnerReference` builds for a Pattern. -/
def ownerReferenceOf (p : Pattern) : OwnerReference :=
  { APIVersion := "gitops.hybrid-cloud-patterns.io/v1alpha1", Kind := "Pattern",
    Name := p.ObjectMeta.Name, UID := p.ObjectMeta.UID }

/-- The two owner references name the same object (`referSameObject` of the owner-reference
helpers: group and version, kind and name). -/
def refersSameObject (a b : OwnerReference) : Bool :=
  a.APIVersion == b.APIVersion && a.Kind == b.Kind && a.Name == b.Name

/-- The helper `controllerutil.SetOwnerReference` on the references of an object, as the example
cluster has it: an owner in a namespace other than the object's is refused (the caller discards
the error and the object keeps its references); otherwise the reference replaces the one that
names the same object, or joins the list. -/
def attachOwner (ownerNamespace objectNamespace : String) (ref : OwnerReference)
    (refs : List OwnerReference) : List OwnerReference :=
  if ownerNamespace = "" ∨ ownerNamespace = objectNamespace then
    if refs.any (fun x => refersSameObject x ref) then
      refs.map (fun x => if refersSameObject x ref then ref else x)
    else refs ++ [ref]
  else refs

/-- The answer of `ownedBySame` on the example cluster: every owner reference of the target names
an object that an owner reference of the observed object names too; a target without owner
references is owned by the same. -/
def sameOwners (target observed : List OwnerReference) : Bool :=
  target.all (fun x => observed.any (fun y => refersSameObject y x))

/-- A Pattern as a user creates it, in the namespace of the GitOps Applications: only the target
repository is set. -/
def examplePattern : Pattern :=
  { ObjectMeta := { Name := "demo", Namespace := "openshift-gitops", UID := "u1",
                    DeletionTimestamp := none, Finalizers := [] },
    Spec := { ClusterGroupName := "",
              GitConfig := { TargetRepo := "https://git.example.com/org/repo", TargetRevision := "",
                             Hostname := "", ValuesDirectoryURL := "" },
              GitOpsConfig := none },
    Status := { LastStep := "", LastError := "", Version := 0, ClusterName := "",
                ClusterPlatform := "", ClusterDomain := "", ClusterID := "" } }

/-- The Application the example cluster expects for a Pattern. -/
def exampleApplication (p : Pattern) : Application :=
  { Name := p.ObjectMeta.Name ++ "-" ++ p.Spec.ClusterGroupName, Namespace := "openshift-gitops",
    RepoURL := p.Spec.GitConfig.TargetRepo, TargetRevision := p.Spec.GitConfig.TargetRevision,
    OwnerReferences := [], SyncStatus := "" }

/-- A cluster that serves the Pattern `p`, answers every metadata read, accepts every write, and
holds neither the Subscription nor the Application. Owner references are set as
`controllerutil.SetOwnerReference` sets them (`attachOwner`), and `ownedBySame` compares them
(`sameOwners`). -/
def exampleCluster (p : Pattern) : PatternReconciler :=
  { PatternFinalizer := "foregroundDeletePattern",
    applicationNamespace := "openshift-gitops",
    clientGet := fun _ => .found p,
    clientUpdate := fun _ => none,
    statusUpdate := fun _ => none,
    clusterVersionID := .ok "4f0c",
    infrastructurePlatform := .ok "AWS",
    ingressDomain := .ok "apps.mycluster.blueprints.rhecoeng.com",
    newSubscription := fun q =>
      { Name := "openshift-gitops-operator", Namespace := "openshift-operators",
        Channel := (q.Spec.GitOpsConfig.map (fun c => c.OperatorChannel)).getD "",
        Source := (q.Spec.GitOpsConfig.map (fun c => c.OperatorSource)).getD "",
        StartingCSV := (q.Spec.GitOpsConfig.map (fun c => c.OperatorCSV)).getD "",
        OwnerReferences := [] },
    setOwnerReferenceSub := fun q s =>
      { s with OwnerReferences :=
          attachOwner q.ObjectMeta.Namespace s.Namespace (ownerReferenceOf q) s.OwnerReferences },
    getSubscription := fun _ _ => (some "subscription not found", none),
    createSubscription := fun _ => none,
    updateSubscription := fun _ _ => (none, false),
    ownedBySameSub := fun t o => sameOwners t.OwnerReferences o.OwnerReferences,
    haveNamespace := fun _ => true,
    newApplication := exampleApplication,
    setOwnerReferenceApp := fun q a =>
      { a with OwnerReferences :=
          attachOwner q.ObjectMeta.Namespace a.Namespace (ownerReferenceOf q) a.OwnerReferences },
    applicationName := fun q => q.ObjectMeta.Name ++ "-" ++ q.Spec.ClusterGroupName,
    getApplication := fun _ => (some "application not found", none),
    createApplication := fun _ => none,
    updateApplication := fun _ _ => (none, false),
    ownedBySameApp := fun t o => sameOwners t.OwnerReferences o.OwnerReferences,
    removeApplication := fun _ => none,
    haveACMHub := false }

/-- The example Pattern once the finalizer is on it. -/
def finalizedPattern : Pattern :=
  { examplePattern with ObjectMeta :=
      { examplePattern.ObjectMeta with Finalizers := ["foregroundDeletePattern"] } }

/-- The example Pattern, carrying the finalizer, once the user has deleted it. -/
def deletingPattern : Pattern :=
  { finalizedPattern with ObjectMeta :=
      { finalizedPattern.ObjectMeta with DeletionTimestamp := some 1700000000 } }

/-- What defaulting makes of the example Pattern on the example cluster, for the metadata
`meta` of the Pattern. -/
def qualifiedExample (meta : ObjectMeta) : Pattern :=
  { ObjectMeta := meta,
    Spec := { ClusterGroupName := "default",
              GitConfig := { TargetRepo := "https://git.example.com/org/repo",
                             TargetRevision := "main", Hostname := "git.example.com",
                             ValuesDirectoryURL := "" },
              GitOpsConfig := some { OperatorChannel := "stable",
                                     OperatorSource := "redhat-operators",
                                     OperatorCSV := "v1.4.0" } },
    Status := { LastStep := "", LastError := "", Version := 0, ClusterName := "mycluster",
                ClusterPlatform := "AWS",
                ClusterDomain := "apps.mycluster.blueprints.rhecoeng.com", ClusterID := "4f0c" } }

/-- The Subscription of the example Pattern as the cluster holds it. It lives in the namespace
of the operators, not in the Pattern's, so no owner reference could be set on it; `ownedBySame`
holds of it, the target carrying no owner reference either. -/
def ownedSubscription : Subscription :=
  { Name := "openshift-gitops-operator", Namespace := "openshift-operators", Channel := "stable",
    Source := "redhat-operators", StartingCSV := "v1.4.0",
    OwnerReferences := [] }

/-- The Application of the example Pattern as the cluster holds it, owned by the Pattern, with
the given live sync status. -/
def ownedApplication (syncStatus : String) : Application :=
  { Name := "demo-default", Namespace := "openshift-gitops",
    RepoURL := "https://git.example.com/org/repo", TargetRevision := "main",
    OwnerReferences := [ownerReferenceOf examplePattern], SyncStatus := syncStatus }

/-- The example cluster once it holds the Subscription and the Application of the Pattern `p`,
both up to date: the Application carries the owner reference of the example Pattern and has the
given live sync status, the Subscription carries none; `ownedBySame` holds of both. -/
def steadyCluster (p : Pattern) (syncStatus : String) : PatternReconciler :=
  { exampleCluster p with
    getSubscription := fun _ _ => (none, some ownedSubscription),
    getApplication := fun _ => (none, some (ownedApplication syncStatus)) }

/-- The steady cluster on which every update of the Application changes it and fails. -/
def failedUpdateCluster (p : Pattern) : PatternReconciler :=
  { steadyCluster p "Synced" with
    updateApplication := fun _ _ => (some "the object has been modified", true) }

/-- The steady cluster, for the Pattern under deletion, whose cluster version cannot be read. -/
def unreadableCluster : PatternReconciler :=
  { steadyCluster deletingPattern "OutOfSync" with
    clusterVersionID := .error "clusterversions.config.openshift.io \"version\" not found" }

/-- The steady cluster, for the Pattern under deletion, on which a hub is still present. -/
def hubCluster : PatternReconciler :=
  { steadyCluster deletingPattern "Synced" with haveACMHub := true }

/-- The request for the example Pattern. -/
def exampleRequest : Request := { Namespace := "openshift-gitops", Name := "demo" }

/-- The GitOps configuration `applyDefaults` leaves in the qualified Pattern, in closed form: the
three constants for a nil configuration, and for each empty field of a given one. -/
def gitOpsDefaults (config : Option GitOpsConfig) : GitOpsConfig :=
  match config with
  | none =>
    { OperatorChannel := "stable", OperatorSource := "redhat-operators", OperatorCSV := "v1.4.0" }
  | some c =>
    { OperatorChannel := (if c.OperatorChannel = "" then "stable" else c.OperatorChannel),
      OperatorSource := (if c.OperatorSource = "" then "redhat-operators" else c.OperatorSource),
      OperatorCSV := (if c.OperatorCSV = "" then "v1.4.0" else c.OperatorCSV) }

/-- The example Pattern with a target repository that has no `/` in it. -/
def bareRepoPattern : Pattern :=
  { finalizedPattern with Spec := { finalizedPattern.Spec with
      GitConfig := { finalizedPattern.Spec.GitConfig with TargetRepo := "git.example.com" } } }

/-- The example Pattern, carrying the finalizer, with an SSH target repository. -/
def sshPattern : Pattern :=
  { finalizedPattern with Spec := { finalizedPattern.Spec with
      GitConfig := { finalizedPattern.Spec.GitConfig with
        TargetRepo := "git@git.example.com:org/repo.git" } } }

/-- The Pattern whose status is written when the update of the Application of the example
Pattern failed: the qualified Pattern with the version raised and the outcome of the step. -/
def failedUpdateReport : Pattern :=
  setOutcome
    { qualifiedExample finalizedPattern.ObjectMeta with
      Status := { (qualifiedExample finalizedPattern.ObjectMeta).Status with Version := 1 } }
    "updated application" (some "the object has been modified")

/-- The three metadata reads, in the order `applyDefaults` issues them. -/
def metadataReads : List Call := [.getClusterVersion, .getInfrastructure, .getIngress]

/-- The ownership condition of a call that updates an owned resource: `ownedBySame` holds of the
target and the observed object the call is issued with. -/
def ownershipRespected (r : PatternReconciler) : Call → Prop
  | .updateSubscription target observed => r.ownedBySameSub target observed = true
  | .updateApplication target observed => r.ownedBySameApp target observed = true
  | _ => True

/-- The Application named `name` is the one this invocation observed for the Pattern it read,
and `ownedBySame` holds of the target and it. -/
def observedOwnedApplication (r : PatternReconciler) (req : Request) (name : String) : Prop :=
  ∃ inst q app, r.clientGet req = .found inst
    ∧ (applyDefaults r inst).ret = some (none, q)
    ∧ (r.getApplication (r.applicationName q)).2 = some app
    ∧ r.ownedBySameApp (r.setOwnerReferenceApp q (r.newApplication q)) app = true
    ∧ app.Name = name

/-- The conditions under which the Application named `name` is deleted for the qualified
Pattern `q`: the lookup found an Application of that name, owned, that needed no update, there
is no hub, and its sync status is not `OutOfSync`. -/
def removalGuard (r : PatternReconciler) (q : Pattern) (name : String) : Prop :=
  ∃ app, (r.getApplication (r.applicationName q)).2 = some app
    ∧ r.ownedBySameApp (r.setOwnerReferenceApp q (r.newApplication q)) app = true
    ∧ (r.updateApplication (r.setOwnerReferenceApp q (r.newApplication q)) app).2 = false
    ∧ r.haveACMHub = false
    ∧ app.SyncStatus ≠ SyncStatusCodeOutOfSync
    ∧ app.Name = name

/-- The call deletes an Application. -/
def isRemoveApplication : Call → Bool
  | .removeApplication _ => true
  | _ => false

/-- Among the calls of an invocation there is an update of the Application that reported a
change together with a non-nil error. -/
def failedApplicationUpdate (r : PatternReconciler) (calls : List Call) : Bool :=
  calls.any fun c =>
    match c with
    | .updateApplication target observed =>
      (r.updateApplication target observed).2 && (r.updateApplication target observed).1.isSome
    | _ => false

/-- The version every status write of a run carries: `bumped` when the run holds a failed update
of the Application, `kept` otherwise. -/
def versionWritten (r : PatternReconciler) (calls : List Call) (kept bumped : Int) : Prop :=
  ∀ p, Call.statusUpdate p ∈ calls →
    p.Status.Version = if failedApplicationUpdate r calls = true then bumped else kept

/-- The call changes the Pattern's metadata, the Subscription store or the Application store:
the write of the Pattern, a create, a delete, or an update helper that reports a change (an update
helper that reports no change has written nothing). Status writes are not counted here. -/
def isMutation (r : PatternReconciler) : Call → Bool
  | .clientUpdate _ => true
  | .createSubscription _ => true
  | .updateSubscription target observed => (r.updateSubscription target observed).2
  | .createApplication _ => true
  | .updateApplication target observed => (r.updateApplication target observed).2
  | .removeApplication _ => true
  | _ => false

/-- The call writes: a mutation, or a write of the Pattern's status. -/
def isWrite (r : PatternReconciler) : Call → Bool
  | .statusUpdate _ => true
  | c => isMutation r c

/-- The cluster with the unreadable cluster version on which, besides, every status write is
refused. -/
def refusingCluster : PatternReconciler :=
  { unreadableCluster with statusUpdate := fun _ => some "the object has been modified" }

/-- The example cluster, for the Pattern carrying the finalizer, whose infrastructure cannot be
read. -/
def halfReadCluster : PatternReconciler :=
  { exampleCluster finalizedPattern with
    infrastructurePlatform := .error "infrastructures.config.openshift.io \"cluster\" not found" }

/-- The call writes the Pattern itself (`r.Client.Update`). -/
def isClientUpdate : Call → Bool
  | .clientUpdate _ => true
  | _ => false

/-- The Application of the example Pattern as the cluster holds it when another Pattern of the
same namespace owns it: its only owner reference names the Pattern `other`. -/
def foreignApplication : Application :=
  { ownedApplication "Synced" with
    OwnerReferences := [{ APIVersion := "gitops.hybrid-cloud-patterns.io/v1alpha1",
                          Kind := "Pattern", Name := "other", UID := "u2" }] }

/-- The steady cluster, for the Pattern carrying the finalizer, whose Application is owned by
another Pattern. -/
def foreignCluster : PatternReconciler :=
  { steadyCluster finalizedPattern "Synced" with
    getApplication := fun _ => (none, some foreignApplication) }

/-- The cluster with the foreign Application on which, besides, every status write is
refused. -/
def foreignRefusingCluster : PatternReconciler :=
  { foreignCluster with statusUpdate := fun _ => some "the object has been modified" }

/-- The error `Reconcile` reports for an Application it does not own. -/
def ownershipConflict (r : PatternReconciler) (q : Pattern) : String :=
  "We no longer own Application " ++ quote (r.setOwnerReferenceApp q (r.newApplication q)).Name

/-- The call creates, updates or deletes an Application. -/
def isApplicationWrite : Call → Bool
  | .createApplication _ => true
  | .updateApplication _ _ => true
  | .removeApplication _ => true
  | _ => false

/-- The example cluster, for the Pattern carrying the finalizer, whose ingress domain has a
single label. -/
def oneLabelCluster : PatternReconciler :=
  { exampleCluster finalizedPattern with ingressDomain := .ok "localhost" }

/-- The call writes, through the status client, a Pattern that lacks one of the given
finalizers: seen from a Pattern with these finalizers, the write removes a finalizer. -/
def dropsFinalizer (finalizers : List String) : Call → Bool
  | .statusUpdate p => finalizers.any (fun f => !p.ObjectMeta.Finalizers.contains f)
  | _ => false

/-- A state-advancing action of an invocation that read a Pattern with the given finalizers: a
mutation of the Pattern's metadata, of the Subscription store or of the Application store
(`isMutation`), or the write, through the status client, that removes a finalizer. A status
write that keeps the finalizers is a status report and is not counted. -/
def isAction (r : PatternReconciler) (finalizers : List String) (c : Call) : Bool :=
  isMutation r c || dropsFinalizer finalizers c

/-- The text of a repository URL between the end of its scheme, `schemeLength` characters
long (8 for `https://`, 7 for `http://`), and the next `/`, or the end of the URL. -/
def textAfterScheme (repo : String) (schemeLength : Nat) : String :=
  String.mk ((repo.data.drop schemeLength).takeWhile (fun c => c != '/'))

/-! # Properties -/

/-! ## Sequencing lemmas -/

theorem bind_calls {α β : Type} (m : Run α) (f : α → Run β) :
    (m >>= f).calls = match m.ret with
      | none => m.calls
      | some a => m.calls ++ (f a).calls := by
  show (Run.bind m f).calls = _
  unfold Run.bind
  cases m.ret <;> rfl

theorem bind_ret {α β : Type} (m : Run α) (f : α → Run β) :
    (m >>= f).ret = match m.ret with
      | none => none
      | some a => (f a).ret := by
  show (Run.bind m f).ret = _
  unfold Run.bind
  cases m.ret <;> rfl

theorem pure_calls {α : Type} (a : α) : (pure a : Run α).calls = [] := rfl

theorem pure_ret {α : Type} (a : α) : (pure a : Run α).ret = some a := rfl

theorem call_calls {α : Type} (c : Call) (a : α) : (call c a).calls = [c] := rfl

theorem call_ret {α : Type} (c : Call) (a : α) : (call c a).ret = some a := rfl

theorem fault_calls {α : Type} : (fault : Run α).calls = [] := rfl

theorem fault_ret {α : Type} : (fault : Run α).ret = none := rfl

/-! ## Defaulting in closed form -/

theorem applyDefaults_eq (r : PatternReconciler) (inst : Pattern) :
    applyDefaults r inst =
      match r.clusterVersionID with
      | .error e => ⟨[.getClusterVersion], some (some e, inst)⟩
      | .ok clusterID =>
        match r.infrastructurePlatform with
        | .error e => ⟨[.getClusterVersion, .getInfrastructure],
            some (some e, { inst with Status := { inst.Status with ClusterID := clusterID } })⟩
        | .ok platform =>
          match r.ingressDomain with
          | .error e => ⟨metadataReads,
              some (some e, { inst with Status :=
                { inst.Status with ClusterID := clusterID, ClusterPlatform := platform } })⟩
          | .ok domain => ⟨metadataReads,
              (fillDefaults { inst with Status :=
                { inst.Status with ClusterID := clusterID, ClusterPlatform := platform } }
                  domain).map (fun o => (none, o))⟩ := by
  unfold applyDefaults
  cases h1 : r.clusterVersionID with
  | error e => rfl
  | ok a =>
    cases h2 : r.infrastructurePlatform with
    | error e => simp [bind, Run.bind, call, pure, Run.pure, h1, h2]
    | ok b =>
      cases h3 : r.ingressDomain with
      | error e => simp [bind, Run.bind, call, pure, Run.pure, h1, h2, h3, metadataReads]
      | ok d =>
        simp only [bind, Run.bind, call, pure, Run.pure, h1, h2, h3]
        cases fillDefaults _ d <;> simp [fault, Run.pure, metadataReads]

theorem forall_calls_bind {α β : Type} (P : Call → Prop) (m : Run α) (f : α → Run β)
    (hm : ∀ c ∈ m.calls, P c) (hf : ∀ a, m.ret = some a → ∀ c ∈ (f a).calls, P c) :
    ∀ c ∈ (m >>= f).calls, P c := by
  intro c hc
  rw [bind_calls] at hc
  cases hret : m.ret with
  | none =>
    rw [hret] at hc
    exact hm c hc
  | some a =>
    rw [hret] at hc
    rcases List.mem_append.mp hc with h | h
    · exact hm c h
    · exact hf a hret c h

theorem bind_eq_of_ret {α β : Type} (m : Run α) (f : α → Run β) (a : α) (h : m.ret = some a) :
    (m >>= f) = ⟨m.calls ++ (f a).calls, (f a).ret⟩ := by
  show Run.bind m f = _
  unfold Run.bind
  rw [h]

theorem bind_eq_of_fault {α β : Type} (m : Run α) (f : α → Run β) (h : m.ret = none) :
    (m >>= f) = ⟨m.calls, none⟩ := by
  show Run.bind m f = _
  unfold Run.bind
  rw [h]

theorem applyDefaults_calls (r : PatternReconciler) (inst : Pattern) :
    ∀ c ∈ (applyDefaults r inst).calls, c ∈ metadataReads := by
  rw [applyDefaults_eq]
  repeat' split
  all_goals simp [metadataReads]

/-! ## The status reporter -/

theorem onReconcileErrorWithRequeue_calls (r : PatternReconciler) (p : Pattern) (reason : String)
    (err : GoError) (duration : Option Duration) :
    (onReconcileErrorWithRequeue r p reason err duration).calls
      = [Call.statusUpdate (setOutcome p reason err)] := by
  unfold onReconcileErrorWithRequeue
  simp only [bind_calls, call_calls, call_ret]
  cases r.statusUpdate (setOutcome p reason err) <;> cases duration <;> simp [pure_calls]

theorem onReconcileErrorWithRequeue_ret (r : PatternReconciler) (p : Pattern) (reason : String)
    (err : GoError) (duration : Option Duration) :
    (onReconcileErrorWithRequeue r p reason err duration).ret
      = match r.statusUpdate (setOutcome p reason err) with
        | some e => some ({}, some e)
        | none => some ({ RequeueAfter := duration.getD 0 }, err) := by
  unfold onReconcileErrorWithRequeue
  simp only [bind_ret, call_ret]
  cases r.statusUpdate (setOutcome p reason err) <;> cases duration <;> simp [pure_ret]

theorem actionPerformed_calls (r : PatternReconciler) (p : Pattern) (reason : String)
    (err : GoError) :
    (actionPerformed r p reason err).calls = [Call.statusUpdate (setOutcome p reason err)] := by
  unfold actionPerformed
  split
  · exact onReconcileErrorWithRequeue_calls ..
  · split <;> exact onReconcileErrorWithRequeue_calls ..

theorem actionPerformed_ret_error (r : PatternReconciler) (p : Pattern) (reason e : String)
    (hwrite : r.statusUpdate (setOutcome p reason (some e)) = none) :
    (actionPerformed r p reason (some e)).ret
      = some ({ Requeue := false, RequeueAfter := 1 * Minute }, some e) := by
  simp [actionPerformed, onReconcileErrorWithRequeue_ret, hwrite, Minute]

/-! ## C1: the backoff policy of `actionPerformed` -/

/-- C1: when the status write succeeds, `actionPerformed` returns a delay of one minute together
with the step's error when there is one; a delay of two minutes and no error when there is none
and the Pattern is being deleted; the empty result and no error otherwise. -/
theorem actionPerformed_backoff (r : PatternReconciler) (p : Pattern) (reason : String)
    (err : GoError) (hwrite : r.statusUpdate (setOutcome p reason err) = none) :
    (∀ e, err = some e →
      (actionPerformed r p reason err).ret
        = some ({ Requeue := false, RequeueAfter := 1 * Minute }, some e)) ∧
    (err = none → IsZero p.ObjectMeta.DeletionTimestamp = false →
      (actionPerformed r p reason err).ret
        = some ({ Requeue := false, RequeueAfter := 2 * Minute }, none)) ∧
    (err = none → IsZero p.ObjectMeta.DeletionTimestamp = true →
      (actionPerformed r p reason err).ret = some ({ Requeue := false, RequeueAfter := 0 }, none)) := by
  refine ⟨?_, ?_, ?_⟩
  · intro e he
    subst he
    simp [actionPerformed, onReconcileErrorWithRequeue_ret, hwrite, Minute]
  · intro he hz
    subst he
    simp [actionPerformed, onReconcileErrorWithRequeue_ret, hwrite, hz, Minute]
  · intro he hz
    subst he
    simp [actionPerformed, onReconcileErrorWithRequeue_ret, hwrite, hz]

/-- C1 at a concrete input: on the example cluster a failed step of a Pattern under deletion is
requeued after one minute, with its error. -/
theorem actionPerformed_backoff_witness :
    (actionPerformed (exampleCluster deletingPattern) deletingPattern "finalize"
        (some "waiting for removal of that acm hub")).ret
      = some ({ Requeue := false, RequeueAfter := 1 * Minute },
          some "waiting for removal of that acm hub") :=
  (actionPerformed_backoff (exampleCluster deletingPattern) deletingPattern "finalize"
    (some "waiting for removal of that acm hub") rfl).1 _ rfl

/-! ## C2: pre-validation -/

theorem isPrefixOf_head_ne {c d : Char} (h : c ≠ d) (p s : List Char) :
    (c :: p).isPrefixOf (d :: s) = false := by
  simp [List.isPrefixOf, h]

/-- C2: `preValidation` accepts exactly the target repositories that start with `https://` or
`http://`; one that starts with `git@` gets the message `Invalid TargetRepo: <repo>`, every other
rejected one the message `TargetRepo must be either http/https: <repo>`, and the two messages
differ. -/
theorem preValidation_spec (p : Pattern) :
    (preValidation p = none ↔
      (hasPrefix p.Spec.GitConfig.TargetRepo "https://" = true
        ∨ hasPrefix p.Spec.GitConfig.TargetRepo "http://" = true)) ∧
    (hasPrefix p.Spec.GitConfig.TargetRepo "git@" = true →
      preValidation p = some ("Invalid TargetRepo: " ++ p.Spec.GitConfig.TargetRepo)) ∧
    (preValidation p ≠ none → hasPrefix p.Spec.GitConfig.TargetRepo "git@" = false →
      preValidation p
        = some ("TargetRepo must be either http/https: " ++ p.Spec.GitConfig.TargetRepo)) ∧
    ("Invalid TargetRepo: " ++ p.Spec.GitConfig.TargetRepo
      ≠ "TargetRepo must be either http/https: " ++ p.Spec.GitConfig.TargetRepo) := by
  have hex : hasPrefix p.Spec.GitConfig.TargetRepo "git@" = true →
      hasPrefix p.Spec.GitConfig.TargetRepo "https://" = false
        ∧ hasPrefix p.Spec.GitConfig.TargetRepo "http://" = false := by
    unfold hasPrefix
    rcases p.Spec.GitConfig.TargetRepo with ⟨cs⟩
    cases cs with
    | nil => intro h; exact absurd h (by decide)
    | cons c cs =>
      intro h
      have hc : c = 'g' := by
        have h2 : ('g' :: ['i', 't', '@']).isPrefixOf (c :: cs) = true := h
        by_contra hne
        rw [isPrefixOf_head_ne (fun h3 => hne h3.symm)] at h2
        exact Bool.noConfusion h2
      subst hc
      exact ⟨isPrefixOf_head_ne (by decide) _ _, isPrefixOf_head_ne (by decide) _ _⟩
  refine ⟨?_, ?_, ?_, ?_⟩
  · unfold preValidation
    constructor
    · intro h
      split at h
      · exact absurd h (by simp)
      · split at h
        · rename_i h2
          simpa using h2
        · exact absurd h (by simp)
    · intro h
      have hg : hasPrefix p.Spec.GitConfig.TargetRepo "git@" = false := by
        cases hg : hasPrefix p.Spec.GitConfig.TargetRepo "git@"
        · rfl
        · have := hex hg
          rcases h with h | h <;> simp_all
      rcases h with h | h <;> simp [hg, h]
  · intro h
    simp [preValidation, h]
  · intro hne hg
    unfold preValidation at hne ⊢
    by_cases h2 : (hasPrefix p.Spec.GitConfig.TargetRepo "https://"
        || hasPrefix p.Spec.GitConfig.TargetRepo "http://") = true
    · simp [hg, h2] at hne
    · simp [hg, h2]
  · intro h
    have h2 := congrArg String.data h
    simp at h2

/-! ## C3: the ownership guard -/

theorem finalizeApplication_ownership (r : PatternReconciler) (q : Pattern) :
    ∀ c ∈ (finalizeApplication r q).calls, ownershipRespected r c := by
  simp only [finalizeApplication, bind, Run.bind, pure, Run.pure, call, fault]
  repeat' split
  all_goals simp_all [ownershipRespected]

theorem finalizeObject_ownership (r : PatternReconciler) (inst : Pattern) :
    ∀ c ∈ (finalizeObject r inst).calls, ownershipRespected r c := by
  unfold finalizeObject
  split
  · apply forall_calls_bind
    · intro c hc
      have hread := applyDefaults_calls r inst c hc
      simp only [metadataReads, List.mem_cons, List.mem_singleton, List.not_mem_nil, or_false]
        at hread
      rcases hread with rfl | rfl | rfl <;> trivial
    · rintro ⟨err, q⟩ _
      dsimp only
      split
      · simp [pure_calls]
      · exact finalizeApplication_ownership r q
  · simp [pure_calls]

theorem reconcileApplication_ownership (r : PatternReconciler) (q : Pattern) :
    ∀ c ∈ (reconcileApplication r q).calls, ownershipRespected r c := by
  simp only [reconcileApplication, bind, Run.bind, pure, Run.pure, call, fault]
  repeat' split
  all_goals simp_all [ownershipRespected, actionPerformed_calls]

theorem reconcileNamespace_ownership (r : PatternReconciler) (q : Pattern) :
    ∀ c ∈ (reconcileNamespace r q).calls, ownershipRespected r c := by
  have hnext := reconcileApplication_ownership r q
  simp only [reconcileNamespace, bind, Run.bind, pure, Run.pure, call, fault]
  repeat' split
  all_goals simp_all [ownershipRespected, actionPerformed_calls]

theorem reconcileSubscription_ownership (r : PatternReconciler) (q : Pattern) :
    ∀ c ∈ (reconcileSubscription r q).calls, ownershipRespected r c := by
  have hnext := reconcileNamespace_ownership r q
  simp only [reconcileSubscription, bind, Run.bind, pure, Run.pure, call, fault]
  repeat' split
  all_goals simp_all [ownershipRespected, actionPerformed_calls]

theorem convergence_ownership (r : PatternReconciler) (inst : Pattern) :
    ∀ c ∈ (convergence r inst).calls, ownershipRespected r c := by
  unfold convergence
  apply forall_calls_bind
  · intro c hc
    have hread := applyDefaults_calls r inst c hc
    simp only [metadataReads, List.mem_cons, List.mem_singleton, List.not_mem_nil, or_false] at hread
    rcases hread with rfl | rfl | rfl <;> trivial
  · rintro ⟨err, q⟩ _
    dsimp only
    split
    · simp [actionPerformed_calls, ownershipRespected]
    · split
      · simp [actionPerformed_calls, ownershipRespected]
      · exact reconcileSubscription_ownership r q

theorem Reconcile_ownership (r : PatternReconciler) (req : Request) :
    ∀ c ∈ (Reconcile r req).calls, ownershipRespected r c := by
  unfold Reconcile
  apply forall_calls_bind
  · simp [call, ownershipRespected]
  · intro g _
    cases g with
    | notFound e => simp [pure_calls]
    | failed e => simp [pure_calls]
    | found inst =>
      dsimp only
      split
      · split
        · apply forall_calls_bind
          · simp [call, ownershipRespected]
          · intro e _
            simp [actionPerformed_calls, ownershipRespected]
        · exact convergence_ownership r inst
      · apply forall_calls_bind
        · exact finalizeObject_ownership r inst
        · intro e _
          cases e with
          | some e => simp [actionPerformed_calls, ownershipRespected]
          | none =>
            dsimp only
            apply forall_calls_bind
            · simp [call, ownershipRespected]
            · intro u _
              cases u <;> simp [pure_calls, fault_calls]

theorem finalizeApplication_removal (r : PatternReconciler) (q : Pattern) :
    ∀ c ∈ (finalizeApplication r q).calls, ∀ n, c = .removeApplication n → removalGuard r q n := by
  simp only [finalizeApplication, removalGuard, bind, Run.bind, pure, Run.pure, call, fault]
  repeat' split
  all_goals simp_all

theorem finalizeObject_removal (r : PatternReconciler) (inst : Pattern) :
    ∀ c ∈ (finalizeObject r inst).calls, ∀ n, c = .removeApplication n →
      ∃ q, (applyDefaults r inst).ret = some (none, q) ∧ removalGuard r q n := by
  unfold finalizeObject
  split
  · apply forall_calls_bind
    · intro c hc n hn
      have hread := applyDefaults_calls r inst c hc
      subst hn
      simp [metadataReads] at hread
    · rintro ⟨err, q⟩ hret
      dsimp only
      split
      · simp [pure_calls]
      · rename_i herr
        intro c hc n hn
        cases err with
        | some e => simp at herr
        | none => exact ⟨q, hret, finalizeApplication_removal r q c hc n hn⟩
  · simp [pure_calls]

theorem reconcileApplication_no_removal (r : PatternReconciler) (q : Pattern) :
    ∀ c ∈ (reconcileApplication r q).calls, isRemoveApplication c = false := by
  simp only [reconcileApplication, bind, Run.bind, pure, Run.pure, call, fault]
  repeat' split
  all_goals simp_all [isRemoveApplication, actionPerformed_calls]

theorem reconcileNamespace_no_removal (r : PatternReconciler) (q : Pattern) :
    ∀ c ∈ (reconcileNamespace r q).calls, isRemoveApplication c = false := by
  have hnext := reconcileApplication_no_removal r q
  simp only [reconcileNamespace, bind, Run.bind, pure, Run.pure, call, fault]
  repeat' split
  all_goals simp_all [isRemoveApplication, actionPerformed_calls]

theorem reconcileSubscription_no_removal (r : PatternReconciler) (q : Pattern) :
    ∀ c ∈ (reconcileSubscription r q).calls, isRemoveApplication c = false := by
  have hnext := reconcileNamespace_no_removal r q
  simp only [reconcileSubscription, bind, Run.bind, pure, Run.pure, call, fault]
  repeat' split
  all_goals simp_all [isRemoveApplication, actionPerformed_calls]

theorem convergence_no_removal (r : PatternReconciler) (inst : Pattern) :
    ∀ c ∈ (convergence r inst).calls, isRemoveApplication c = false := by
  unfold convergence
  apply forall_calls_bind
  · intro c hc
    have hread := applyDefaults_calls r inst c hc
    simp only [metadataReads, List.mem_cons, List.mem_singleton, List.not_mem_nil, or_false] at hread
    rcases hread with rfl | rfl | rfl <;> rfl
  · rintro ⟨err, q⟩ _
    dsimp only
    split
    · simp [actionPerformed_calls, isRemoveApplication]
    · split
      · simp [actionPerformed_calls, isRemoveApplication]
      · exact reconcileSubscription_no_removal r q

theorem Reconcile_removal (r : PatternReconciler) (req : Request) :
    ∀ c ∈ (Reconcile r req).calls, ∀ n, c = .removeApplication n →
      observedOwnedApplication r req n := by
  unfold Reconcile
  apply forall_calls_bind
  · simp [call]
  · intro g hg
    have hget : r.clientGet req = g := by simpa [call] using hg
    cases g with
    | notFound e => simp [pure_calls]
    | failed e => simp [pure_calls]
    | found inst =>
      dsimp only
      split
      · split
        · apply forall_calls_bind
          · simp [call]
          · intro e _
            simp [actionPerformed_calls]
        · intro c hc n hn
          have hno := convergence_no_removal r inst c hc
          subst hn
          simp [isRemoveApplication] at hno
      · apply forall_calls_bind
        · intro c hc n hn
          obtain ⟨q, hq, app, happ, hown, _, _, _, hname⟩ := finalizeObject_removal r inst c hc n hn
          exact ⟨inst, q, app, hget, hq, happ, hown, hname⟩
        · intro e _
          cases e with
          | some e => simp [actionPerformed_calls]
          | none =>
            dsimp only
            apply forall_calls_bind
            · simp [call]
            · intro u _
              cases u <;> simp [pure_calls, fault_calls]

/-- C3: in every invocation of `Reconcile`, on the convergence pipeline and on the finalization
path alike, an update of a Subscription or of an Application is issued only for an observed object
of which `ownedBySame` holds, and a delete only for the Application the invocation observed and
found owned; so when the observed object is not owned, it is neither updated nor deleted. -/
theorem ownership_guard (r : PatternReconciler) (req : Request) :
    (∀ target observed, Call.updateSubscription target observed ∈ (Reconcile r req).calls →
      r.ownedBySameSub target observed = true) ∧
    (∀ target observed, Call.updateApplication target observed ∈ (Reconcile r req).calls →
      r.ownedBySameApp target observed = true) ∧
    (∀ name, Call.removeApplication name ∈ (Reconcile r req).calls →
      observedOwnedApplication r req name) :=
  ⟨fun t s h => Reconcile_ownership r req (.updateSubscription t s) h,
   fun t a h => Reconcile_ownership r req (.updateApplication t a) h,
   fun n h => Reconcile_removal r req (.removeApplication n) h n rfl⟩

/-- C3 at a concrete input: on the steady cluster the Application of the Pattern under deletion
is deleted, and it is the Application the invocation observed and found owned. -/
theorem ownership_guard_witness :
    Call.removeApplication "demo-default"
        ∈ (Reconcile (steadyCluster deletingPattern "Synced") exampleRequest).calls
      ∧ observedOwnedApplication (steadyCluster deletingPattern "Synced") exampleRequest
          "demo-default" :=
  ⟨by decide,
   (ownership_guard (steadyCluster deletingPattern "Synced") exampleRequest).2.2 _ (by decide)⟩

/-! ## The finalization protocol along its paths -/

theorem applyDefaults_calls_of_ok (r : PatternReconciler) (inst q : Pattern)
    (hq : (applyDefaults r inst).ret = some (none, q)) :
    (applyDefaults r inst).calls = metadataReads := by
  rw [applyDefaults_eq] at hq ⊢
  repeat' split
  all_goals simp_all

theorem finalizeObject_of_defaults (r : PatternReconciler) (inst q : Pattern)
    (hfin : (ContainsFinalizer inst r.PatternFinalizer
      || ContainsFinalizer inst FinalizerOrphanDependents) = true)
    (hq : (applyDefaults r inst).ret = some (none, q)) :
    finalizeObject r inst
      = ⟨metadataReads ++ (finalizeApplication r q).calls, (finalizeApplication r q).ret⟩ := by
  unfold finalizeObject
  rw [if_pos hfin, bind_eq_of_ret _ _ _ hq, applyDefaults_calls_of_ok r inst q hq]
  simp

theorem finalizeApplication_out_of_sync (r : PatternReconciler) (q : Pattern) (app : Application)
    (happ : (r.getApplication (r.applicationName q)).2 = some app)
    (hown : r.ownedBySameApp (r.setOwnerReferenceApp q (r.newApplication q)) app = true)
    (hsync : app.SyncStatus = SyncStatusCodeOutOfSync) :
    (finalizeApplication r q).ret = some (some (
      if (r.updateApplication (r.setOwnerReferenceApp q (r.newApplication q)) app).2 = true then
        "updated application " ++ quote app.Name ++ " for removal\n"
      else if r.haveACMHub = true then "waiting for removal of that acm hub"
      else "application " ++ quote app.Name ++ " is still " ++ SyncStatusCodeOutOfSync)) := by
  simp only [finalizeApplication, bind, Run.bind, pure, Run.pure, call, fault, happ, hown]
  cases hch : (r.updateApplication (r.setOwnerReferenceApp q (r.newApplication q)) app).2 <;>
    cases hhub : r.haveACMHub <;> simp [hsync]

/-! ## C4: deletion blocks on sync -/

/-- C4, as the code has it: `finalizeObject` deletes an Application only when the one it
observed is not `OutOfSync`; and when the Pattern carries the finalizer, defaulting succeeds and
the lookup returns an owned Application that is `OutOfSync`, it returns a non-nil pending error
without calling `removeApplication`, whether a hub is present or not and whether the Application
drifted or not. -/
theorem finalizeObject_blocks_on_sync (r : PatternReconciler) (inst : Pattern) :
    (∀ name, Call.removeApplication name ∈ (finalizeObject r inst).calls →
      ∃ q app, (applyDefaults r inst).ret = some (none, q)
        ∧ (r.getApplication (r.applicationName q)).2 = some app
        ∧ app.Name = name ∧ app.SyncStatus ≠ SyncStatusCodeOutOfSync) ∧
    (∀ q app,
      (ContainsFinalizer inst r.PatternFinalizer
        || ContainsFinalizer inst FinalizerOrphanDependents) = true →
      (applyDefaults r inst).ret = some (none, q) →
      (r.getApplication (r.applicationName q)).2 = some app →
      r.ownedBySameApp (r.setOwnerReferenceApp q (r.newApplication q)) app = true →
      app.SyncStatus = SyncStatusCodeOutOfSync →
        (∃ e, (finalizeObject r inst).ret = some (some e))
          ∧ ∀ name, Call.removeApplication name ∉ (finalizeObject r inst).calls) := by
  have hfirst : ∀ name, Call.removeApplication name ∈ (finalizeObject r inst).calls →
      ∃ q app, (applyDefaults r inst).ret = some (none, q)
        ∧ (r.getApplication (r.applicationName q)).2 = some app
        ∧ app.Name = name ∧ app.SyncStatus ≠ SyncStatusCodeOutOfSync := by
    intro name h
    obtain ⟨q, hq, app, happ, _, _, _, hsync, hname⟩ :=
      finalizeObject_removal r inst _ h name rfl
    exact ⟨q, app, hq, happ, hname, hsync⟩
  refine ⟨hfirst, ?_⟩
  intro q app hfin hq happ hown hsync
  constructor
  · rw [finalizeObject_of_defaults r inst q hfin hq]
    exact ⟨_, finalizeApplication_out_of_sync r q app happ hown hsync⟩
  · intro name h
    obtain ⟨q2, app2, hq2, happ2, _, hsync2⟩ := hfirst name h
    rw [hq] at hq2
    have hqq : q = q2 := by simpa using hq2
    subst hqq
    rw [happ] at happ2
    have haa : app = app2 := by simpa using happ2
    subst haa
    exact hsync2 hsync

/-- C4 at a concrete input: on the steady cluster whose Application is `OutOfSync`, finalizing
the Pattern under deletion returns a pending error and deletes nothing. -/
theorem finalizeObject_blocks_on_sync_witness :
    (∃ e, (finalizeObject (steadyCluster deletingPattern "OutOfSync") deletingPattern).ret
        = some (some e))
      ∧ ∀ name, Call.removeApplication name
          ∉ (finalizeObject (steadyCluster deletingPattern "OutOfSync") deletingPattern).calls :=
  (finalizeObject_blocks_on_sync (steadyCluster deletingPattern "OutOfSync") deletingPattern).2
    (qualifiedExample deletingPattern.ObjectMeta) (ownedApplication "OutOfSync")
    (by decide) (by decide) (by decide) (by decide) (by decide)

/-- C4 as stated fails: the Pattern under deletion carries the finalizer and its owned
Application is `OutOfSync`, but the cluster version cannot be read, and `finalizeObject` returns
nil, not a pending error. -/
theorem finalizeObject_pending_counterexample :
    IsZero deletingPattern.ObjectMeta.DeletionTimestamp = false
      ∧ ContainsFinalizer deletingPattern unreadableCluster.PatternFinalizer = true
      ∧ (∀ name, (unreadableCluster.getApplication name).2 = some (ownedApplication "OutOfSync"))
      ∧ unreadableCluster.ownedBySameApp
          (unreadableCluster.setOwnerReferenceApp deletingPattern
            (unreadableCluster.newApplication deletingPattern))
          (ownedApplication "OutOfSync") = true
      ∧ (ownedApplication "OutOfSync").SyncStatus = SyncStatusCodeOutOfSync
      ∧ (finalizeObject unreadableCluster deletingPattern).ret = some none :=
  ⟨by decide, by decide, fun _ => rfl, by decide, by decide, by decide⟩

/-! ## C5: the finalizer comes first -/

/-- C5: for a Pattern that is not being deleted and does not carry the finalizer, one invocation
of `Reconcile` reads the Pattern, writes it back with the finalizer added and reports the step:
it reads no cluster metadata, issues no call against a Subscription or an Application, and
returns what `actionPerformed` returns for the step "updated finalizer". -/
theorem finalizer_first (r : PatternReconciler) (req : Request) (inst : Pattern)
    (hget : r.clientGet req = .found inst)
    (hzero : IsZero inst.ObjectMeta.DeletionTimestamp = true)
    (hfin : ContainsFinalizer inst r.PatternFinalizer = false) :
    (Reconcile r req).calls
        = [Call.clientGet req,
           Call.clientUpdate (AddFinalizer inst r.PatternFinalizer),
           Call.statusUpdate (setOutcome (AddFinalizer inst r.PatternFinalizer) "updated finalizer"
             (r.clientUpdate (AddFinalizer inst r.PatternFinalizer)))]
      ∧ (Reconcile r req).ret
        = (actionPerformed r (AddFinalizer inst r.PatternFinalizer) "updated finalizer"
            (r.clientUpdate (AddFinalizer inst r.PatternFinalizer))).ret
      ∧ ContainsFinalizer (AddFinalizer inst r.PatternFinalizer) r.PatternFinalizer = true
      ∧ (AddFinalizer inst r.PatternFinalizer).Spec = inst.Spec
      ∧ (AddFinalizer inst r.PatternFinalizer).Status = inst.Status := by
  refine ⟨?_, ?_, ?_, ?_, ?_⟩
  · unfold Reconcile
    rw [bind_eq_of_ret _ _ _ (call_ret _ _), hget]
    simp only [hzero, hfin, if_true, Bool.not_false]
    rw [bind_eq_of_ret _ _ _ (call_ret _ _)]
    simp [call_calls, actionPerformed_calls]
  · unfold Reconcile
    rw [bind_eq_of_ret _ _ _ (call_ret _ _), hget]
    simp only [hzero, hfin, if_true, Bool.not_false]
    rw [bind_eq_of_ret _ _ _ (call_ret _ _)]
  · unfold AddFinalizer
    rw [hfin]
    simp [ContainsFinalizer]
  · simp [AddFinalizer, hfin]
  · simp [AddFinalizer, hfin]

/-- C5 at a concrete input: the freshly created example Pattern gets its finalizer, in three
calls, and the invocation returns the empty result. -/
theorem finalizer_first_witness :
    (Reconcile (exampleCluster examplePattern) exampleRequest).calls
        = [Call.clientGet exampleRequest, Call.clientUpdate finalizedPattern,
           Call.statusUpdate (setOutcome finalizedPattern "updated finalizer" none)]
      ∧ (Reconcile (exampleCluster examplePattern) exampleRequest).ret = some ({}, none) :=
  ⟨(finalizer_first (exampleCluster examplePattern) exampleRequest examplePattern rfl
      (by decide) (by decide)).1,
   by decide⟩

/-! ## C8: finalization when the Application is gone -/

/-- C8, what the code does: for a Pattern that carries the finalizer, when defaulting succeeds
and the lookup returns a nil Application, `finalizeObject` issues the three metadata reads and the
lookup, no mutating call, and then panics while logging `app.Name`: it does not return. -/
theorem finalizeObject_missing_application (r : PatternReconciler) (inst q : Pattern)
    (hfin : (ContainsFinalizer inst r.PatternFinalizer
      || ContainsFinalizer inst FinalizerOrphanDependents) = true)
    (hq : (applyDefaults r inst).ret = some (none, q))
    (hmiss : (r.getApplication (r.applicationName q)).2 = none) :
    finalizeObject r inst
      = ⟨metadataReads ++ [Call.getApplication (r.applicationName q)], none⟩ := by
  rw [finalizeObject_of_defaults r inst q hfin hq]
  simp [finalizeApplication, bind, Run.bind, call, fault, hmiss]

/-- C8 at the failing input: on the example cluster, which holds no Application, finalizing the
Pattern under deletion does not return. -/
theorem finalizeObject_missing_application_witness :
    (finalizeObject (exampleCluster deletingPattern) deletingPattern).ret = none
      ∧ (finalizeObject (exampleCluster deletingPattern) deletingPattern).calls
          = metadataReads ++ [Call.getApplication "demo-default"] :=
  have h := finalizeObject_missing_application (exampleCluster deletingPattern) deletingPattern
    (qualifiedExample deletingPattern.ObjectMeta) (by decide) (by decide) (by decide)
  ⟨congrArg Run.ret h, congrArg Run.calls h⟩

/-! ## C9: the delay of a pending finalization -/

/-- C9, as the code has it: for a Pattern marked for deletion, when `finalizeObject` reports a
pending condition `e`, `Reconcile` reports the step "finalize" with it and, the status write
succeeding, requeues after one minute, the delay of a step error, together with `e`. -/
theorem finalize_pending_requeue (r : PatternReconciler) (req : Request) (inst : Pattern)
    (e : String)
    (hget : r.clientGet req = .found inst)
    (hdel : IsZero inst.ObjectMeta.DeletionTimestamp = false)
    (hpending : (finalizeObject r inst).ret = some (some e))
    (hwrite : r.statusUpdate (setOutcome inst "finalize" (some e)) = none) :
    (Reconcile r req).ret = some ({ Requeue := false, RequeueAfter := 1 * Minute }, some e)
      ∧ (Reconcile r req).calls
        = [Call.clientGet req] ++ (finalizeObject r inst).calls
            ++ [Call.statusUpdate (setOutcome inst "finalize" (some e))] := by
  unfold Reconcile
  rw [bind_eq_of_ret _ _ _ (call_ret _ _), hget]
  simp only [hdel, Bool.false_eq_true, if_false]
  rw [bind_eq_of_ret _ _ _ hpending]
  simp only [actionPerformed_calls, call_calls, List.append_assoc, and_true]
  exact actionPerformed_ret_error r inst "finalize" e hwrite

/-- C9 at a concrete input: while the Application is `OutOfSync`, the invocation for the Pattern
under deletion is requeued after one minute. -/
theorem finalize_pending_requeue_witness :
    (Reconcile (steadyCluster deletingPattern "OutOfSync") exampleRequest).ret
      = some ({ Requeue := false, RequeueAfter := 1 * Minute },
          some "application \"demo-default\" is still OutOfSync") :=
  (finalize_pending_requeue (steadyCluster deletingPattern "OutOfSync") exampleRequest
    deletingPattern "application \"demo-default\" is still OutOfSync" rfl (by decide) (by decide)
    rfl).1

/-- C9 as stated fails: with a hub still present, `finalizeObject` reports a pending condition for
the Pattern under deletion and `Reconcile` requeues after one minute, not after the two
minutes of the deletion branch. -/
theorem finalize_pending_delay_counterexample :
    IsZero deletingPattern.ObjectMeta.DeletionTimestamp = false
      ∧ (finalizeObject hubCluster deletingPattern).ret
          = some (some "waiting for removal of that acm hub")
      ∧ (Reconcile hubCluster exampleRequest).ret
          = some ({ Requeue := false, RequeueAfter := 1 * Minute },
              some "waiting for removal of that acm hub")
      ∧ (Reconcile hubCluster exampleRequest).ret
          ≠ some ({ Requeue := false, RequeueAfter := 2 * Minute },
              some "waiting for removal of that acm hub") := by
  refine ⟨by decide, by decide, by decide, by decide⟩

/-! ## Defaulting, field by field -/

theorem defaultTargetRevision_eq (o : Pattern) :
    defaultTargetRevision o = { o with Spec := { o.Spec with GitConfig := { o.Spec.GitConfig with
      TargetRevision :=
        (if o.Spec.GitConfig.TargetRevision = "" then "main"
         else o.Spec.GitConfig.TargetRevision) } } } := by
  unfold defaultTargetRevision
  split <;> simp_all

theorem defaultClusterGroupName_eq (o : Pattern) :
    defaultClusterGroupName o = { o with Spec := { o.Spec with
      ClusterGroupName :=
        (if o.Spec.ClusterGroupName = "" then "default" else o.Spec.ClusterGroupName) } } := by
  unfold defaultClusterGroupName
  split <;> simp_all

theorem defaultGitOpsConfig_eq (o : Pattern) :
    defaultGitOpsConfig o
      = { o with Spec := { o.Spec with GitOpsConfig := some (gitOpsDefaults o.Spec.GitOpsConfig) } } := by
  unfold defaultGitOpsConfig gitOpsDefaults
  cases hcfg : o.Spec.GitOpsConfig with
  | none => simp
  | some c =>
    rcases c with ⟨a, b, d⟩
    by_cases ha : a = "" <;> by_cases hb : b = "" <;> by_cases hd : d = "" <;> simp [ha, hb, hd]

theorem defaultHostname_eq (o : Pattern) :
    defaultHostname o =
      if o.Spec.GitConfig.Hostname = "" then
        ((split o.Spec.GitConfig.TargetRepo '/')[2]?).map (fun host =>
          { o with Spec := { o.Spec with GitConfig := { o.Spec.GitConfig with Hostname := host } } })
      else some o := by
  unfold defaultHostname
  split
  · cases (split o.Spec.GitConfig.TargetRepo '/')[2]? <;> rfl
  · rfl

theorem setClusterNames_eq (o : Pattern) (domain : String) :
    setClusterNames o domain =
      ((split domain '.')[1]?).map (fun clusterName =>
        { o with Status := { o.Status with ClusterName := clusterName, ClusterDomain := domain } }) := by
  unfold setClusterNames
  cases (split domain '.')[1]? <;> rfl

theorem fillDefaults_fields (o : Pattern) (domain : String)
    (hlabels : 1 < (split domain '.').length)
    (hsegments : o.Spec.GitConfig.Hostname ≠ ""
      ∨ 2 < (split o.Spec.GitConfig.TargetRepo '/').length) :
    ∃ output, fillDefaults o domain = some output
      ∧ output.ObjectMeta = o.ObjectMeta
      ∧ output.Spec.GitConfig.TargetRepo = o.Spec.GitConfig.TargetRepo
      ∧ output.Spec.GitConfig.ValuesDirectoryURL = o.Spec.GitConfig.ValuesDirectoryURL
      ∧ output.Spec.GitConfig.TargetRevision
          = (if o.Spec.GitConfig.TargetRevision = "" then "main"
             else o.Spec.GitConfig.TargetRevision)
      ∧ (if o.Spec.GitConfig.Hostname = "" then
           (split o.Spec.GitConfig.TargetRepo '/')[2]? = some output.Spec.GitConfig.Hostname
         else output.Spec.GitConfig.Hostname = o.Spec.GitConfig.Hostname)
      ∧ (o.Spec.GitOpsConfig = none →
           output.Spec.GitOpsConfig = some
             { OperatorChannel := "stable", OperatorSource := "redhat-operators",
               OperatorCSV := "v1.4.0" })
      ∧ (∀ c, o.Spec.GitOpsConfig = some c →
           output.Spec.GitOpsConfig = some {
             OperatorChannel := (if c.OperatorChannel = "" then "stable" else c.OperatorChannel),
             OperatorSource :=
               (if c.OperatorSource = "" then "redhat-operators" else c.OperatorSource),
             OperatorCSV := (if c.OperatorCSV = "" then "v1.4.0" else c.OperatorCSV) })
      ∧ output.Spec.ClusterGroupName
          = (if o.Spec.ClusterGroupName = "" then "default" else o.Spec.ClusterGroupName) := by
  obtain ⟨name, hname⟩ : ∃ name, (split domain '.')[1]? = some name :=
    ⟨_, List.getElem?_eq_getElem hlabels⟩
  unfold fillDefaults
  simp only [setClusterNames_eq, defaultHostname_eq, defaultTargetRevision_eq,
    defaultGitOpsConfig_eq, defaultClusterGroupName_eq, hname, Option.map_some']
  by_cases hhost : o.Spec.GitConfig.Hostname = ""
  · have hlen : 2 < (split o.Spec.GitConfig.TargetRepo '/').length := by
      rcases hsegments with h | h
      · exact absurd hhost h
      · exact h
    obtain ⟨host, hhostv⟩ : ∃ host, (split o.Spec.GitConfig.TargetRepo '/')[2]? = some host :=
      ⟨_, List.getElem?_eq_getElem hlen⟩
    by_cases hrev : o.Spec.GitConfig.TargetRevision = "" <;>
      by_cases hgrp : o.Spec.ClusterGroupName = "" <;>
      cases hcfg : o.Spec.GitOpsConfig <;>
      simp [hhost, hhostv, hrev, hgrp, hcfg, gitOpsDefaults]
  · by_cases hrev : o.Spec.GitConfig.TargetRevision = "" <;>
      by_cases hgrp : o.Spec.ClusterGroupName = "" <;>
      cases hcfg : o.Spec.GitOpsConfig <;>
      simp [hhost, hrev, hgrp, hcfg, gitOpsDefaults]


/-! ## C6: the defaults of the spec -/

/-- C6, as the code has it: when the three metadata reads succeed, the ingress domain has at
least two labels, and the hostname is set or the target repository has at least three
`/`-delimited segments, `applyDefaults` returns, without error, a copy in which the target
revision, the hostname, the three GitOps fields and the cluster-group name keep the user's value
when it is non-empty and otherwise take `main`, the third segment of the target repository,
`stable`, `redhat-operators`, `v1.4.0` and `default`; a nil GitOps configuration becomes one with
exactly the three defaults. -/
theorem applyDefaults_fields (r : PatternReconciler) (input : Pattern)
    (clusterID platform domain : String)
    (hversion : r.clusterVersionID = .ok clusterID)
    (hinfra : r.infrastructurePlatform = .ok platform)
    (hingress : r.ingressDomain = .ok domain)
    (hlabels : 1 < (split domain '.').length)
    (hsegments : input.Spec.GitConfig.Hostname ≠ ""
      ∨ 2 < (split input.Spec.GitConfig.TargetRepo '/').length) :
    ∃ output, (applyDefaults r input).ret = some (none, output)
      ∧ output.ObjectMeta = input.ObjectMeta
      ∧ output.Spec.GitConfig.TargetRepo = input.Spec.GitConfig.TargetRepo
      ∧ output.Spec.GitConfig.ValuesDirectoryURL = input.Spec.GitConfig.ValuesDirectoryURL
      ∧ output.Spec.GitConfig.TargetRevision
          = (if input.Spec.GitConfig.TargetRevision = "" then "main"
             else input.Spec.GitConfig.TargetRevision)
      ∧ (if input.Spec.GitConfig.Hostname = "" then
           (split input.Spec.GitConfig.TargetRepo '/')[2]? = some output.Spec.GitConfig.Hostname
         else output.Spec.GitConfig.Hostname = input.Spec.GitConfig.Hostname)
      ∧ (input.Spec.GitOpsConfig = none →
           output.Spec.GitOpsConfig = some
             { OperatorChannel := "stable", OperatorSource := "redhat-operators",
               OperatorCSV := "v1.4.0" })
      ∧ (∀ c, input.Spec.GitOpsConfig = some c →
           output.Spec.GitOpsConfig = some {
             OperatorChannel := (if c.OperatorChannel = "" then "stable" else c.OperatorChannel),
             OperatorSource :=
               (if c.OperatorSource = "" then "redhat-operators" else c.OperatorSource),
             OperatorCSV := (if c.OperatorCSV = "" then "v1.4.0" else c.OperatorCSV) })
      ∧ output.Spec.ClusterGroupName
          = (if input.Spec.ClusterGroupName = "" then "default"
             else input.Spec.ClusterGroupName) := by
  obtain ⟨output, hout, hrest⟩ := fillDefaults_fields
    { input with Status := { input.Status with ClusterID := clusterID, ClusterPlatform := platform } }
    domain hlabels hsegments
  refine ⟨output, ?_, hrest⟩
  rw [applyDefaults_eq]
  simp [hversion, hinfra, hingress, hout]

/-- C6 at the input of the specification: the target repository
`https://git.example.com/org/repo` with nothing else set gives the revision `main` and the
hostname `git.example.com`. -/
theorem applyDefaults_fields_witness :
    ∃ output, (applyDefaults (exampleCluster examplePattern) examplePattern).ret
        = some (none, output)
      ∧ output.Spec.GitConfig.TargetRevision = "main"
      ∧ output.Spec.GitConfig.Hostname = "git.example.com" := by
  obtain ⟨output, hret, _, _, _, hrev, hhost, _⟩ :=
    applyDefaults_fields (exampleCluster examplePattern) examplePattern "4f0c" "AWS"
      "apps.mycluster.blueprints.rhecoeng.com" rfl rfl rfl (by decide) (Or.inr (by decide))
  refine ⟨output, hret, by simpa [examplePattern] using hrev, ?_⟩
  have h2 : (split examplePattern.Spec.GitConfig.TargetRepo '/')[2]? = some "git.example.com" := by
    decide
  have h3 : examplePattern.Spec.GitConfig.Hostname = "" := rfl
  rw [if_pos h3, h2] at hhost
  exact (Option.some.inj hhost).symm

/-- C6 as stated fails: every metadata read succeeds, but the target repository
`git.example.com` has a single segment and no hostname is set, so `applyDefaults` panics on
`ss[2]` and returns no copy. -/
theorem applyDefaults_fields_counterexample :
    (exampleCluster bareRepoPattern).clusterVersionID = .ok "4f0c"
      ∧ (exampleCluster bareRepoPattern).infrastructurePlatform = .ok "AWS"
      ∧ (exampleCluster bareRepoPattern).ingressDomain
          = .ok "apps.mycluster.blueprints.rhecoeng.com"
      ∧ split bareRepoPattern.Spec.GitConfig.TargetRepo '/' = ["git.example.com"]
      ∧ (applyDefaults (exampleCluster bareRepoPattern) bareRepoPattern).ret = none :=
  ⟨rfl, rfl, rfl, by decide, by decide⟩

/-! ## C7: the SSH target repository -/

theorem fillDefaults_ssh (o : Pattern) (domain : String)
    (hrepo : o.Spec.GitConfig.TargetRepo = "git@git.example.com:org/repo.git")
    (hhost : o.Spec.GitConfig.Hostname = "") :
    fillDefaults o domain = none := by
  have hsplit : (split "git@git.example.com:org/repo.git" '/')[2]? = none := by decide
  unfold fillDefaults
  rw [setClusterNames_eq]
  cases (split domain '.')[1]? with
  | none => rfl
  | some name =>
    simp [defaultHostname_eq, defaultTargetRevision_eq, hrepo, hhost, hsplit]

theorem applyDefaults_ssh (r : PatternReconciler) (inst : Pattern)
    (hrepo : inst.Spec.GitConfig.TargetRepo = "git@git.example.com:org/repo.git")
    (hhost : inst.Spec.GitConfig.Hostname = "") :
    ((applyDefaults r inst).ret = none ∧ (applyDefaults r inst).calls = metadataReads)
      ∨ ∃ e q, (applyDefaults r inst).ret = some (some e, q) := by
  rw [applyDefaults_eq]
  cases hv : r.clusterVersionID with
  | error e => exact Or.inr ⟨e, _, rfl⟩
  | ok clusterID =>
    cases hi : r.infrastructurePlatform with
    | error e => exact Or.inr ⟨e, _, rfl⟩
    | ok platform =>
      cases hg : r.ingressDomain with
      | error e => exact Or.inr ⟨e, _, rfl⟩
      | ok domain =>
        have hnone := fillDefaults_ssh
          { inst with Status :=
              { inst.Status with ClusterID := clusterID, ClusterPlatform := platform } }
          domain hrepo hhost
        left
        simp [hnone]

theorem Reconcile_of_convergence (r : PatternReconciler) (req : Request) (inst : Pattern)
    (hget : r.clientGet req = .found inst)
    (hzero : IsZero inst.ObjectMeta.DeletionTimestamp = true)
    (hfin : ContainsFinalizer inst r.PatternFinalizer = true) :
    Reconcile r req = (call (.clientGet req) (r.clientGet req) >>= fun _ => convergence r inst) := by
  unfold Reconcile
  rw [bind_eq_of_ret _ _ _ (call_ret _ _), bind_eq_of_ret _ _ _ (call_ret _ _), hget]
  simp [hzero, hfin]

/-- C7, what the code does: for a Pattern that is not being deleted, carries the finalizer and
has the target repository `git@git.example.com:org/repo.git` with no hostname, `Reconcile`
never reaches pre-validation. When the three metadata reads succeed it panics in `applyDefaults`
on `ss[2]`, after the reads and before any status write; otherwise the only step it reports is
"applying defaults". -/
theorem ssh_url_never_validated (r : PatternReconciler) (req : Request) (inst : Pattern)
    (hget : r.clientGet req = .found inst)
    (hzero : IsZero inst.ObjectMeta.DeletionTimestamp = true)
    (hfin : ContainsFinalizer inst r.PatternFinalizer = true)
    (hrepo : inst.Spec.GitConfig.TargetRepo = "git@git.example.com:org/repo.git")
    (hhost : inst.Spec.GitConfig.Hostname = "") :
    (∀ p, Call.statusUpdate p ∈ (Reconcile r req).calls →
      p.Status.LastStep = "applying defaults") ∧
    (∀ clusterID platform domain, r.clusterVersionID = .ok clusterID →
      r.infrastructurePlatform = .ok platform → r.ingressDomain = .ok domain →
      Reconcile r req = ⟨Call.clientGet req :: metadataReads, none⟩) := by
  rw [Reconcile_of_convergence r req inst hget hzero hfin, bind_eq_of_ret _ _ _ (call_ret _ _)]
  unfold convergence
  constructor
  · intro p hp
    rcases applyDefaults_ssh r inst hrepo hhost with ⟨hfault, _⟩ | ⟨e, q, hret⟩
    · rw [bind_eq_of_fault _ _ hfault] at hp
      simp only [call_calls, List.mem_append, List.mem_singleton] at hp
      rcases hp with hp | hp
      · exact absurd hp (by simp)
      · have hread := applyDefaults_calls r inst _ hp
        simp [metadataReads] at hread
    · rw [bind_eq_of_ret _ _ _ hret] at hp
      simp only [call_calls, List.mem_append, List.mem_singleton, Option.isSome_some, if_true,
        actionPerformed_calls] at hp
      rcases hp with hp | hp | hp
      · exact absurd hp (by simp)
      · have hread := applyDefaults_calls r inst _ hp
        simp [metadataReads] at hread
      · have hpq : p = setOutcome q "applying defaults" (some e) := by simpa using hp
        subst hpq
        simp [setOutcome]
  · intro clusterID platform domain hv hi hg
    have hfault : (applyDefaults r inst).ret = none ∧ (applyDefaults r inst).calls = metadataReads := by
      rcases applyDefaults_ssh r inst hrepo hhost with h | ⟨e, q, hret⟩
      · exact h
      · rw [applyDefaults_eq] at hret
        simp [hv, hi, hg] at hret
    rw [bind_eq_of_fault _ _ hfault.1, hfault.2]
    simp [call_calls]

/-- C7 at the failing input: on the example cluster the Pattern with the SSH target repository
makes `Reconcile` panic after the metadata reads; no status is written, and pre-validation, which
would reject the repository, is not reached. -/
theorem ssh_url_never_validated_witness :
    Reconcile (exampleCluster sshPattern) exampleRequest
        = ⟨Call.clientGet exampleRequest :: metadataReads, none⟩
      ∧ preValidation sshPattern = some "Invalid TargetRepo: git@git.example.com:org/repo.git" :=
  ⟨(ssh_url_never_validated (exampleCluster sshPattern) exampleRequest sshPattern rfl
      (by decide) (by decide) rfl rfl).2 "4f0c" "AWS" "apps.mycluster.blueprints.rhecoeng.com"
      rfl rfl rfl,
   by decide⟩

/-! ## C10: the version counter -/

theorem setOutcome_version (p : Pattern) (reason : String) (err : GoError) :
    (setOutcome p reason err).Status.Version = p.Status.Version := by
  unfold setOutcome
  cases err <;> rfl

theorem reconcileApplication_version (r : PatternReconciler) (q : Pattern) :
    versionWritten r (reconcileApplication r q).calls q.Status.Version
      (wrapInt64 (1 + q.Status.Version)) := by
  simp only [versionWritten, reconcileApplication, postValidation, bind, Run.bind, pure, Run.pure,
    call, fault]
  repeat' split
  all_goals simp_all [failedApplicationUpdate, actionPerformed_calls, setOutcome_version]

theorem versionWritten_cons (r : PatternReconciler) (c : Call) (calls : List Call)
    (kept bumped : Int) (hstatus : ∀ p, c ≠ .statusUpdate p)
    (hupdate : ∀ target observed, c ≠ .updateApplication target observed)
    (h : versionWritten r calls kept bumped) : versionWritten r (c :: calls) kept bumped := by
  intro p hp
  have hfail : failedApplicationUpdate r (c :: calls) = failedApplicationUpdate r calls := by
    unfold failedApplicationUpdate
    rw [List.any_cons]
    cases c <;> simp_all
  rw [hfail]
  rcases List.mem_cons.mp hp with hp | hp
  · exact absurd hp.symm (hstatus p)
  · exact h p hp

theorem versionWritten_append (r : PatternReconciler) (pre calls : List Call)
    (kept bumped : Int) (hstatus : ∀ p, Call.statusUpdate p ∉ pre)
    (hupdate : ∀ target observed, Call.updateApplication target observed ∉ pre)
    (h : versionWritten r calls kept bumped) : versionWritten r (pre ++ calls) kept bumped := by
  induction pre with
  | nil => simpa using h
  | cons c pre ih =>
    rw [List.cons_append]
    apply versionWritten_cons
    · intro p hc
      exact hstatus p (by simp [hc])
    · intro t a hc
      exact hupdate t a (by simp [hc])
    · exact ih (fun p hp => hstatus p (List.mem_cons_of_mem _ hp))
        (fun t a hp => hupdate t a (List.mem_cons_of_mem _ hp))

theorem versionWritten_report (r : PatternReconciler) (q : Pattern) (reason : String)
    (err : GoError) (bumped : Int) :
    versionWritten r (actionPerformed r q reason err).calls q.Status.Version bumped := by
  intro p hp
  simp [actionPerformed_calls] at hp
  subst hp
  simp [actionPerformed_calls, failedApplicationUpdate, setOutcome_version]

theorem reconcileNamespace_version (r : PatternReconciler) (q : Pattern) :
    versionWritten r (reconcileNamespace r q).calls q.Status.Version
      (wrapInt64 (1 + q.Status.Version)) := by
  unfold reconcileNamespace
  rw [bind_eq_of_ret _ _ _ (call_ret _ _), call_calls]
  apply versionWritten_append
  · simp
  · simp
  · split
    · exact versionWritten_report _ _ _ _ _
    · exact reconcileApplication_version r q

theorem reconcileSubscription_version (r : PatternReconciler) (q : Pattern) :
    versionWritten r (reconcileSubscription r q).calls q.Status.Version
      (wrapInt64 (1 + q.Status.Version)) := by
  unfold reconcileSubscription
  rw [bind_eq_of_ret _ _ _ (call_ret _ _), call_calls]
  apply versionWritten_append
  · simp
  · simp
  · dsimp only
    split
    · rw [bind_eq_of_ret _ _ _ (call_ret _ _), call_calls]
      apply versionWritten_append
      · simp
      · simp
      · exact versionWritten_report _ _ _ _ _
    · split
      · rw [bind_eq_of_ret _ _ _ (call_ret _ _), call_calls]
        apply versionWritten_append
        · simp
        · simp
        · dsimp only
          split
          · exact versionWritten_report _ _ _ _ _
          · exact reconcileNamespace_version r q
      · exact reconcileNamespace_version r q

theorem defaultHostname_status (o output : Pattern) (h : defaultHostname o = some output) :
    output.Status = o.Status ∧ output.ObjectMeta = o.ObjectMeta := by
  rw [defaultHostname_eq] at h
  split at h
  · cases hhost : (split o.Spec.GitConfig.TargetRepo '/')[2]? with
    | none => simp [hhost] at h
    | some host =>
      simp only [hhost, Option.map_some', Option.some.injEq] at h
      rw [← h]
      exact ⟨rfl, rfl⟩
  · simp only [Option.some.injEq] at h
    rw [← h]
    exact ⟨rfl, rfl⟩

theorem setClusterNames_version (o output : Pattern) (domain : String)
    (h : setClusterNames o domain = some output) :
    output.Status.Version = o.Status.Version := by
  rw [setClusterNames_eq] at h
  cases hname : (split domain '.')[1]? with
  | none => simp [hname] at h
  | some name =>
    simp only [hname, Option.map_some', Option.some.injEq] at h
    rw [← h]

theorem fillDefaults_version (o output : Pattern) (domain : String)
    (h : fillDefaults o domain = some output) : output.Status.Version = o.Status.Version := by
  unfold fillDefaults at h
  cases h1 : setClusterNames o domain with
  | none => simp [h1] at h
  | some o1 =>
    cases h2 : defaultHostname (defaultTargetRevision o1) with
    | none => simp [h1, h2] at h
    | some o2 =>
      simp only [h1, h2, Option.some.injEq] at h
      rw [← h, defaultClusterGroupName_eq, defaultGitOpsConfig_eq]
      have hs := (defaultHostname_status _ _ h2).1
      rw [defaultTargetRevision_eq] at hs
      have hv := setClusterNames_version _ _ _ h1
      show o2.Status.Version = o.Status.Version
      rw [hs]
      exact hv

theorem applyDefaults_version (r : PatternReconciler) (inst q : Pattern) (err : GoError)
    (h : (applyDefaults r inst).ret = some (err, q)) : q.Status.Version = inst.Status.Version := by
  rw [applyDefaults_eq] at h
  cases hv : r.clusterVersionID with
  | error e =>
    simp [hv] at h
    rw [← h.2]
  | ok clusterID =>
    cases hi : r.infrastructurePlatform with
    | error e =>
      simp [hv, hi] at h
      rw [← h.2]
    | ok platform =>
      cases hg : r.ingressDomain with
      | error e =>
        simp [hv, hi, hg] at h
        rw [← h.2]
      | ok domain =>
        simp only [hv, hi, hg] at h
        cases hfd : fillDefaults
            { inst with Status :=
                { inst.Status with ClusterID := clusterID, ClusterPlatform := platform } }
            domain with
        | none => simp [hfd] at h
        | some o =>
          simp [hfd] at h
          rw [← h.2]
          have hfv := fillDefaults_version _ _ _ hfd
          exact hfv

theorem versionWritten_reads (r : PatternReconciler) (inst : Pattern) (calls : List Call)
    (kept bumped : Int) (h : versionWritten r calls kept bumped) :
    versionWritten r ((applyDefaults r inst).calls ++ calls) kept bumped := by
  apply versionWritten_append _ _ _ _ _ _ _ h
  · intro p hp
    have hread := applyDefaults_calls r inst _ hp
    simp [metadataReads] at hread
  · intro t a hp
    have hread := applyDefaults_calls r inst _ hp
    simp [metadataReads] at hread

theorem convergence_version (r : PatternReconciler) (inst : Pattern) :
    versionWritten r (convergence r inst).calls inst.Status.Version
      (wrapInt64 (1 + inst.Status.Version)) := by
  unfold convergence
  cases hret : (applyDefaults r inst).ret with
  | none =>
    rw [bind_eq_of_fault _ _ hret]
    have h := versionWritten_reads r inst [] inst.Status.Version
      (wrapInt64 (1 + inst.Status.Version)) (by intro p hp; simp at hp)
    simpa using h
  | some res =>
    obtain ⟨err, q⟩ := res
    rw [bind_eq_of_ret _ _ _ hret]
    have hq := applyDefaults_version r inst q err hret
    apply versionWritten_reads
    dsimp only
    rw [← hq]
    split
    · exact versionWritten_report _ _ _ _ _
    · split
      · exact versionWritten_report _ _ _ _ _
      · exact reconcileSubscription_version r q

theorem finalizeApplication_no_status (r : PatternReconciler) (q : Pattern) :
    ∀ c ∈ (finalizeApplication r q).calls, ∀ p, c ≠ .statusUpdate p := by
  simp only [finalizeApplication, bind, Run.bind, pure, Run.pure, call, fault]
  repeat' split
  all_goals simp_all

theorem finalizeObject_no_status (r : PatternReconciler) (inst : Pattern) :
    ∀ c ∈ (finalizeObject r inst).calls, ∀ p, c ≠ .statusUpdate p := by
  unfold finalizeObject
  split
  · apply forall_calls_bind
    · intro c hc p hp
      have hread := applyDefaults_calls r inst c hc
      subst hp
      simp [metadataReads] at hread
    · rintro ⟨err, q⟩ _
      dsimp only
      split
      · simp [pure_calls]
      · exact finalizeApplication_no_status r q
  · simp [pure_calls]

theorem wrapInt64_succ_ne (v : Int) : wrapInt64 (1 + v) ≠ v := by
  unfold wrapInt64
  omega

theorem wrapInt64_succ_eq (v : Int) (hlow : -2 ^ 63 ≤ v) (hhigh : v < 2 ^ 63 - 1) :
    wrapInt64 (1 + v) = v + 1 := by
  unfold wrapInt64
  omega

theorem Reconcile_version_deleting (r : PatternReconciler) (req : Request) (inst : Pattern)
    (hget : r.clientGet req = .found inst)
    (hdel : IsZero inst.ObjectMeta.DeletionTimestamp = false) :
    ∀ c ∈ (Reconcile r req).calls, ∀ p, c = .statusUpdate p →
      p.Status.Version = inst.Status.Version := by
  unfold Reconcile
  rw [bind_eq_of_ret _ _ _ (call_ret _ _), hget]
  simp only [hdel, Bool.false_eq_true, if_false]
  intro c hc p hp
  subst hp
  simp only [call_calls, List.mem_append, List.mem_singleton] at hc
  rcases hc with hc | hc
  · exact absurd hc (by simp)
  · revert hc
    revert p
    have hgoal : ∀ c ∈ (finalizeObject r inst >>= fun x : GoError =>
        match x with
        | some err => actionPerformed r inst "finalize" (some err)
        | none => do
          match ← call (.statusUpdate (RemoveFinalizer inst r.PatternFinalizer))
              (r.statusUpdate (RemoveFinalizer inst r.PatternFinalizer)) with
          | some _ => fault
          | none => return ({}, none)).calls,
        ∀ p, c = .statusUpdate p → p.Status.Version = inst.Status.Version := by
      apply forall_calls_bind
      · intro c hc p hp
        exact absurd hp (finalizeObject_no_status r inst c hc p)
      · intro e _
        cases e with
        | some e =>
          intro c hc p hp
          subst hp
          simp [actionPerformed_calls] at hc
          subst hc
          exact setOutcome_version _ _ _
        | none =>
          dsimp only
          apply forall_calls_bind
          · intro c hc p hp
            subst hp
            simp [call] at hc
            subst hc
            rfl
          · intro u _
            cases u <;> simp [pure_calls, fault_calls]
    intro p hc
    exact hgoal _ hc p rfl

/-- C10, as the code has it: in one invocation of `Reconcile` every status write carries the
input version plus one (in Go's 64-bit `int`, never equal to the input) exactly when the Pattern
is not being deleted and the invocation issued an update of the Application that reported a
change together with a non-nil error, and the input version on every other path, the
finalization path with a failed update included. -/
theorem version_counter (r : PatternReconciler) (req : Request) (inst p : Pattern)
    (hget : r.clientGet req = .found inst)
    (hp : Call.statusUpdate p ∈ (Reconcile r req).calls) :
    p.Status.Version
        = (if (IsZero inst.ObjectMeta.DeletionTimestamp
              && failedApplicationUpdate r (Reconcile r req).calls) = true
           then wrapInt64 (1 + inst.Status.Version) else inst.Status.Version)
      ∧ wrapInt64 (1 + inst.Status.Version) ≠ inst.Status.Version
      ∧ (-2 ^ 63 ≤ inst.Status.Version → inst.Status.Version < 2 ^ 63 - 1 →
          wrapInt64 (1 + inst.Status.Version) = inst.Status.Version + 1) := by
  refine ⟨?_, wrapInt64_succ_ne _, wrapInt64_succ_eq _⟩
  cases hzero : IsZero inst.ObjectMeta.DeletionTimestamp with
  | false =>
    simp only [Bool.false_and, Bool.false_eq_true, if_false]
    exact Reconcile_version_deleting r req inst hget hzero _ hp p rfl
  | true =>
    simp only [Bool.true_and]
    cases hfin : ContainsFinalizer inst r.PatternFinalizer with
    | true =>
      have hrun := Reconcile_of_convergence r req inst hget hzero hfin
      rw [bind_eq_of_ret _ _ _ (call_ret _ _), call_calls] at hrun
      rw [hrun] at hp ⊢
      exact versionWritten_append r _ _ _ _ (by simp) (by simp) (convergence_version r inst) p hp
    | false =>
      have hcalls : (Reconcile r req).calls
          = [Call.clientGet req, Call.clientUpdate (AddFinalizer inst r.PatternFinalizer),
             Call.statusUpdate (setOutcome (AddFinalizer inst r.PatternFinalizer)
               "updated finalizer" (r.clientUpdate (AddFinalizer inst r.PatternFinalizer)))] := by
        unfold Reconcile
        rw [bind_eq_of_ret _ _ _ (call_ret _ _), hget]
        simp only [hzero, hfin, if_true, Bool.not_false]
        rw [bind_eq_of_ret _ _ _ (call_ret _ _)]
        simp [call_calls, actionPerformed_calls]
      rw [hcalls] at hp ⊢
      simp at hp
      subst hp
      simp [failedApplicationUpdate, setOutcome_version, AddFinalizer, hfin]

/-- C10 at a concrete input: on the cluster where the update of the Application fails, the
status written for the Pattern that is not being deleted carries version 1, the input being
0. -/
theorem version_counter_witness :
    Call.statusUpdate failedUpdateReport
        ∈ (Reconcile (failedUpdateCluster finalizedPattern) exampleRequest).calls
      ∧ finalizedPattern.Status.Version = 0
      ∧ failedUpdateReport.Status.Version = 1 :=
  ⟨by decide, rfl,
   ((version_counter (failedUpdateCluster finalizedPattern) exampleRequest finalizedPattern
      failedUpdateReport rfl (by decide)).1).trans (by decide)⟩

/-- C10 as stated fails: for the Pattern under deletion the owned Application is found
drifted and `updateApplication` reports a change together with an error, yet the status that is
written carries the input version, not the input version plus one. -/
theorem version_counter_counterexample :
    (failedUpdateCluster deletingPattern).clientGet exampleRequest = .found deletingPattern
      ∧ (∀ target observed, (failedUpdateCluster deletingPattern).updateApplication target observed
          = (some "the object has been modified", true))
      ∧ failedApplicationUpdate (failedUpdateCluster deletingPattern)
          (Reconcile (failedUpdateCluster deletingPattern) exampleRequest).calls = true
      ∧ ∃ p, (Reconcile (failedUpdateCluster deletingPattern) exampleRequest).calls.getLast?
            = some (Call.statusUpdate p)
          ∧ p.Status.Version = deletingPattern.Status.Version
          ∧ p.Status.Version ≠ deletingPattern.Status.Version + 1 :=
  ⟨rfl, fun _ _ => rfl, by decide,
   setOutcome deletingPattern "finalize"
     (some "updated application \"demo-default\" for removal\n"),
   by decide, by decide, by decide⟩

theorem finalizeApplication_no_client_update (r : PatternReconciler) (q : Pattern) :
    ∀ c ∈ (finalizeApplication r q).calls, isClientUpdate c = false := by
  simp only [finalizeApplication, bind, Run.bind, pure, Run.pure, call, fault]
  repeat' split
  all_goals simp_all [isClientUpdate]

theorem finalizeObject_no_client_update (r : PatternReconciler) (inst : Pattern) :
    ∀ c ∈ (finalizeObject r inst).calls, isClientUpdate c = false := by
  unfold finalizeObject
  split
  · apply forall_calls_bind
    · intro c hc
      have hread := applyDefaults_calls r inst c hc
      simp only [metadataReads, List.mem_cons, List.mem_singleton, List.not_mem_nil, or_false]
        at hread
      rcases hread with rfl | rfl | rfl <;> rfl
    · rintro ⟨err, q⟩ _
      dsimp only
      split
      · simp [pure_calls]
      · exact finalizeApplication_no_client_update r q
  · simp [pure_calls]

/-! ## C14: what the status reporter writes -/

/-- C14: `onReconcileErrorWithRequeue` submits to the status write, before anything else and
whatever the delay, the Pattern with `lastStep` set to the step name and `lastError` set to the
error's message, or to the empty string for a nil error; the other status fields, the metadata
and the spec are those of the Pattern; the result is computed from the answer of that write. -/
theorem status_report_frame (r : PatternReconciler) (p : Pattern) (reason : String)
    (err : GoError) (duration : Option Duration) :
    (onReconcileErrorWithRequeue r p reason err duration).calls
        = [Call.statusUpdate (setOutcome p reason err)]
      ∧ (setOutcome p reason err).Status.LastStep = reason
      ∧ (∀ e, err = some e → (setOutcome p reason err).Status.LastError = e)
      ∧ (err = none → (setOutcome p reason err).Status.LastError = "")
      ∧ (setOutcome p reason err).Status.Version = p.Status.Version
      ∧ (setOutcome p reason err).Status.ClusterName = p.Status.ClusterName
      ∧ (setOutcome p reason err).Status.ClusterPlatform = p.Status.ClusterPlatform
      ∧ (setOutcome p reason err).Status.ClusterDomain = p.Status.ClusterDomain
      ∧ (setOutcome p reason err).Status.ClusterID = p.Status.ClusterID
      ∧ (setOutcome p reason err).ObjectMeta = p.ObjectMeta
      ∧ (setOutcome p reason err).Spec = p.Spec
      ∧ (onReconcileErrorWithRequeue r p reason err duration).ret
          = (match r.statusUpdate (setOutcome p reason err) with
             | some updateErr => some ({ Requeue := false, RequeueAfter := 0 }, some updateErr)
             | none => some ({ Requeue := false, RequeueAfter := duration.getD 0 }, err)) := by
  refine ⟨onReconcileErrorWithRequeue_calls r p reason err duration, ?_, ?_, ?_, ?_, ?_, ?_, ?_,
    ?_, ?_, ?_, onReconcileErrorWithRequeue_ret r p reason err duration⟩
  all_goals cases err <;> simp [setOutcome]

/-! ## C11: idempotent convergence -/

theorem convergence_of_defaults (r : PatternReconciler) (inst q : Pattern)
    (hq : (applyDefaults r inst).ret = some (none, q))
    (hpre : preValidation q = none) :
    convergence r inst
      = ⟨metadataReads ++ (reconcileSubscription r q).calls, (reconcileSubscription r q).ret⟩ := by
  unfold convergence
  rw [bind_eq_of_ret _ _ _ hq, applyDefaults_calls_of_ok r inst q hq]
  simp [hpre]

/-- C11: for a Pattern that is not being deleted, carries the finalizer and passes defaulting and
pre-validation, whose Subscription and Application exist, are owned and need no update, and
whose application namespace exists, one invocation of `Reconcile` issues reads and the two
update helpers that report no change, no write of any kind, and returns the empty result with
no error. -/
theorem idempotent_convergence (r : PatternReconciler) (req : Request) (inst q : Pattern)
    (sub : Subscription) (app : Application)
    (hget : r.clientGet req = .found inst)
    (hzero : IsZero inst.ObjectMeta.DeletionTimestamp = true)
    (hfin : ContainsFinalizer inst r.PatternFinalizer = true)
    (hq : (applyDefaults r inst).ret = some (none, q))
    (hpre : preValidation q = none)
    (hsub : (r.getSubscription (r.setOwnerReferenceSub q (r.newSubscription q)).Name
      (r.setOwnerReferenceSub q (r.newSubscription q)).Namespace).2 = some sub)
    (hsubOwned : r.ownedBySameSub (r.setOwnerReferenceSub q (r.newSubscription q)) sub = true)
    (hsubSame :
      (r.updateSubscription (r.setOwnerReferenceSub q (r.newSubscription q)) sub).2 = false)
    (hns : r.haveNamespace r.applicationNamespace = true)
    (happ : (r.getApplication (r.applicationName q)).2 = some app)
    (happOwned : r.ownedBySameApp (r.setOwnerReferenceApp q (r.newApplication q)) app = true)
    (happSame :
      (r.updateApplication (r.setOwnerReferenceApp q (r.newApplication q)) app).2 = false) :
    (Reconcile r req).ret = some ({ Requeue := false, RequeueAfter := 0 }, none)
      ∧ (Reconcile r req).calls
        = Call.clientGet req :: metadataReads ++
          [Call.getSubscription (r.setOwnerReferenceSub q (r.newSubscription q)).Name
             (r.setOwnerReferenceSub q (r.newSubscription q)).Namespace,
           Call.updateSubscription (r.setOwnerReferenceSub q (r.newSubscription q)) sub,
           Call.haveNamespace r.applicationNamespace,
           Call.getApplication (r.applicationName q),
           Call.updateApplication (r.setOwnerReferenceApp q (r.newApplication q)) app]
      ∧ ∀ c ∈ (Reconcile r req).calls, isWrite r c = false := by
  have happRun : reconcileApplication r q
      = ⟨[Call.getApplication (r.applicationName q),
          Call.updateApplication (r.setOwnerReferenceApp q (r.newApplication q)) app],
         some ({ Requeue := false, RequeueAfter := 0 }, none)⟩ := by
    simp [reconcileApplication, postValidation, bind, Run.bind, pure, Run.pure, call, happ,
      happOwned, happSame]
  have hnsRun : reconcileNamespace r q
      = ⟨[Call.haveNamespace r.applicationNamespace,
          Call.getApplication (r.applicationName q),
          Call.updateApplication (r.setOwnerReferenceApp q (r.newApplication q)) app],
         some ({ Requeue := false, RequeueAfter := 0 }, none)⟩ := by
    simp [reconcileNamespace, bind, Run.bind, call, hns, happRun]
  have hsubRun : reconcileSubscription r q
      = ⟨[Call.getSubscription (r.setOwnerReferenceSub q (r.newSubscription q)).Name
            (r.setOwnerReferenceSub q (r.newSubscription q)).Namespace,
          Call.updateSubscription (r.setOwnerReferenceSub q (r.newSubscription q)) sub,
          Call.haveNamespace r.applicationNamespace,
          Call.getApplication (r.applicationName q),
          Call.updateApplication (r.setOwnerReferenceApp q (r.newApplication q)) app],
         some ({ Requeue := false, RequeueAfter := 0 }, none)⟩ := by
    simp [reconcileSubscription, bind, Run.bind, call, hsub, hsubOwned, hsubSame, hnsRun]
  have hrun := Reconcile_of_convergence r req inst hget hzero hfin
  rw [bind_eq_of_ret _ _ _ (call_ret _ _), convergence_of_defaults r inst q hq hpre, hsubRun,
    call_calls] at hrun
  rw [hrun]
  refine ⟨rfl, by simp, ?_⟩
  intro c hc
  simp only [metadataReads, List.singleton_append, List.cons_append, List.nil_append,
    List.mem_cons, List.mem_singleton, List.not_mem_nil, or_false] at hc
  rcases hc with rfl | rfl | rfl | rfl | rfl | rfl | rfl | rfl | rfl <;>
    simp [isWrite, isMutation, hsubSame, happSame]

/-- C11 at a concrete input: on the steady cluster the example Pattern, carrying the finalizer,
is reconciled in nine read-only calls and the invocation returns the empty result. -/
theorem idempotent_convergence_witness :
    (Reconcile (steadyCluster finalizedPattern "Synced") exampleRequest).ret
        = some ({ Requeue := false, RequeueAfter := 0 }, none)
      ∧ ∀ c ∈ (Reconcile (steadyCluster finalizedPattern "Synced") exampleRequest).calls,
          isWrite (steadyCluster finalizedPattern "Synced") c = false :=
  have h := idempotent_convergence (steadyCluster finalizedPattern "Synced") exampleRequest
    finalizedPattern (qualifiedExample finalizedPattern.ObjectMeta) ownedSubscription
    (ownedApplication "Synced") rfl (by decide) (by decide) (by decide) (by decide) (by decide)
    (by decide) (by decide) (by decide) (by decide) (by decide) (by decide)
  ⟨h.1, h.2.2⟩

/-! ## The deletion path of `Reconcile` -/

theorem Reconcile_of_pending (r : PatternReconciler) (req : Request) (inst : Pattern) (e : String)
    (hget : r.clientGet req = .found inst)
    (hdel : IsZero inst.ObjectMeta.DeletionTimestamp = false)
    (hpending : (finalizeObject r inst).ret = some (some e)) :
    Reconcile r req
      = ⟨Call.clientGet req :: ((finalizeObject r inst).calls
            ++ [Call.statusUpdate (setOutcome inst "finalize" (some e))]),
         (actionPerformed r inst "finalize" (some e)).ret⟩ := by
  unfold Reconcile
  rw [bind_eq_of_ret _ _ _ (call_ret _ _), hget]
  simp only [hdel, Bool.false_eq_true, if_false]
  rw [bind_eq_of_ret _ _ _ hpending]
  simp [actionPerformed_calls, call_calls]

theorem Reconcile_of_finalized (r : PatternReconciler) (req : Request) (inst : Pattern)
    (hget : r.clientGet req = .found inst)
    (hdel : IsZero inst.ObjectMeta.DeletionTimestamp = false)
    (hdone : (finalizeObject r inst).ret = some none) :
    Reconcile r req
      = ⟨Call.clientGet req :: ((finalizeObject r inst).calls
            ++ [Call.statusUpdate (RemoveFinalizer inst r.PatternFinalizer)]),
         match r.statusUpdate (RemoveFinalizer inst r.PatternFinalizer) with
         | some _ => none
         | none => some ({ Requeue := false, RequeueAfter := 0 }, none)⟩ := by
  unfold Reconcile
  rw [bind_eq_of_ret _ _ _ (call_ret _ _), hget]
  simp only [hdel, Bool.false_eq_true, if_false]
  rw [bind_eq_of_ret _ _ _ hdone]
  cases hw : r.statusUpdate (RemoveFinalizer inst r.PatternFinalizer) <;>
    simp [bind, Run.bind, call, pure, Run.pure, fault, hw]

theorem setOutcome_meta (p : Pattern) (reason : String) (err : GoError) :
    (setOutcome p reason err).ObjectMeta = p.ObjectMeta := by
  unfold setOutcome
  cases err <;> rfl

/-! ## C12: the finalizer while the Application is out of sync -/

/-- C12, as the code has it: for a Pattern marked for deletion that carries the finalizer, when
defaulting succeeds and the lookup returns an owned Application that is `OutOfSync`, the
invocation of `Reconcile` reports the pending condition as step "finalize" and ends with a
non-nil error (the pending condition after a successful status write, requeued after one
minute); its only write is that status report, whose Pattern still carries the finalizers, so
the finalizer is not removed. -/
theorem finalizer_kept_while_out_of_sync (r : PatternReconciler) (req : Request)
    (inst q : Pattern) (app : Application)
    (hget : r.clientGet req = .found inst)
    (hdel : IsZero inst.ObjectMeta.DeletionTimestamp = false)
    (hfin : ContainsFinalizer inst r.PatternFinalizer = true)
    (hq : (applyDefaults r inst).ret = some (none, q))
    (happ : (r.getApplication (r.applicationName q)).2 = some app)
    (hown : r.ownedBySameApp (r.setOwnerReferenceApp q (r.newApplication q)) app = true)
    (hsync : app.SyncStatus = SyncStatusCodeOutOfSync) :
    ∃ e, (finalizeObject r inst).ret = some (some e)
      ∧ (Reconcile r req).calls
          = Call.clientGet req :: ((finalizeObject r inst).calls
              ++ [Call.statusUpdate (setOutcome inst "finalize" (some e))])
      ∧ (∀ p, Call.clientUpdate p ∉ (Reconcile r req).calls)
      ∧ (∀ p, Call.statusUpdate p ∈ (Reconcile r req).calls →
          p.ObjectMeta.Finalizers = inst.ObjectMeta.Finalizers)
      ∧ (∃ res err, (Reconcile r req).ret = some (res, some err))
      ∧ (r.statusUpdate (setOutcome inst "finalize" (some e)) = none →
          (Reconcile r req).ret
            = some ({ Requeue := false, RequeueAfter := 1 * Minute }, some e)) := by
  have hfin2 : (ContainsFinalizer inst r.PatternFinalizer
      || ContainsFinalizer inst FinalizerOrphanDependents) = true := by simp [hfin]
  obtain ⟨e, hret⟩ : ∃ e, (finalizeObject r inst).ret = some (some e) := by
    rw [finalizeObject_of_defaults r inst q hfin2 hq]
    exact ⟨_, finalizeApplication_out_of_sync r q app happ hown hsync⟩
  refine ⟨e, hret, ?_, ?_, ?_, ?_, ?_⟩
  · rw [Reconcile_of_pending r req inst _ hget hdel hret]
  · intro p hp
    rw [Reconcile_of_pending r req inst _ hget hdel hret] at hp
    simp only [List.mem_cons, List.mem_append, List.mem_singleton, List.not_mem_nil,
      or_false] at hp
    rcases hp with hp | hp | hp
    · exact absurd hp (by simp)
    · have hnot := finalizeObject_no_client_update r inst _ hp
      simp [isClientUpdate] at hnot
    · exact absurd hp (by simp)
  · intro p hp
    rw [Reconcile_of_pending r req inst _ hget hdel hret] at hp
    simp only [List.mem_cons, List.mem_append, List.mem_singleton, List.not_mem_nil,
      or_false] at hp
    rcases hp with hp | hp | hp
    · exact absurd hp (by simp)
    · exact absurd rfl (finalizeObject_no_status r inst _ hp p)
    · have hpe : p = setOutcome inst "finalize" (some e) := by simpa using hp
      rw [hpe, setOutcome_meta]
  · rw [Reconcile_of_pending r req inst _ hget hdel hret]
    simp only [actionPerformed, Option.isSome_some, if_true, onReconcileErrorWithRequeue_ret]
    split
    · exact ⟨_, _, rfl⟩
    · exact ⟨_, _, rfl⟩
  · intro hwrite
    rw [Reconcile_of_pending r req inst _ hget hdel hret]
    exact actionPerformed_ret_error r inst "finalize" _ hwrite

/-- C12 at a concrete input: on the steady cluster whose Application is `OutOfSync`, the
invocation for the Pattern under deletion ends with an error and every Pattern it writes still
carries the finalizer. -/
theorem finalizer_kept_while_out_of_sync_witness :
    (∃ res err, (Reconcile (steadyCluster deletingPattern "OutOfSync") exampleRequest).ret
        = some (res, some err))
      ∧ ∀ p, Call.statusUpdate p
          ∈ (Reconcile (steadyCluster deletingPattern "OutOfSync") exampleRequest).calls →
          p.ObjectMeta.Finalizers = ["foregroundDeletePattern"] := by
  obtain ⟨_, _, _, _, hkeep, herr, _⟩ :=
    finalizer_kept_while_out_of_sync (steadyCluster deletingPattern "OutOfSync") exampleRequest
      deletingPattern (qualifiedExample deletingPattern.ObjectMeta) (ownedApplication "OutOfSync")
      rfl (by decide) (by decide) (by decide) (by decide) (by decide) (by decide)
  exact ⟨herr, hkeep⟩

/-- C12 as stated fails: the Pattern under deletion carries the finalizer and its owned
Application is `OutOfSync`, but the cluster version cannot be read; `finalizeObject` returns
nil, and the invocation writes the Pattern without the finalizer and ends with no error. -/
theorem finalizer_removed_counterexample :
    IsZero deletingPattern.ObjectMeta.DeletionTimestamp = false
      ∧ ContainsFinalizer deletingPattern unreadableCluster.PatternFinalizer = true
      ∧ (∀ name, (unreadableCluster.getApplication name).2 = some (ownedApplication "OutOfSync"))
      ∧ unreadableCluster.ownedBySameApp
          (unreadableCluster.setOwnerReferenceApp deletingPattern
            (unreadableCluster.newApplication deletingPattern))
          (ownedApplication "OutOfSync") = true
      ∧ (ownedApplication "OutOfSync").SyncStatus = SyncStatusCodeOutOfSync
      ∧ Call.statusUpdate (RemoveFinalizer deletingPattern unreadableCluster.PatternFinalizer)
          ∈ (Reconcile unreadableCluster exampleRequest).calls
      ∧ (RemoveFinalizer deletingPattern unreadableCluster.PatternFinalizer).ObjectMeta.Finalizers
          = []
      ∧ (Reconcile unreadableCluster exampleRequest).ret
          = some ({ Requeue := false, RequeueAfter := 0 }, none) :=
  ⟨by decide, by decide, fun _ => rfl, by decide, by decide, by decide, by decide, by decide⟩

/-! ## C19: the write that removes the finalizer -/

/-- C19, what the code does: for a Pattern marked for deletion for which `finalizeObject`
returns nil, `Reconcile` writes the Pattern without the finalizer; when that write succeeds it
returns the empty result with no error, and when it fails it panics in the log line that calls
`Error()` on the nil `err` of the enclosing `if`, so the write's error is not returned. -/
theorem finalizer_removal_write (r : PatternReconciler) (req : Request) (inst : Pattern)
    (hget : r.clientGet req = .found inst)
    (hdel : IsZero inst.ObjectMeta.DeletionTimestamp = false)
    (hdone : (finalizeObject r inst).ret = some none) :
    (Reconcile r req).calls
        = Call.clientGet req :: ((finalizeObject r inst).calls
            ++ [Call.statusUpdate (RemoveFinalizer inst r.PatternFinalizer)])
      ∧ (r.statusUpdate (RemoveFinalizer inst r.PatternFinalizer) = none →
          (Reconcile r req).ret = some ({ Requeue := false, RequeueAfter := 0 }, none))
      ∧ (∀ updateErr, r.statusUpdate (RemoveFinalizer inst r.PatternFinalizer) = some updateErr →
          (Reconcile r req).ret = none) := by
  rw [Reconcile_of_finalized r req inst hget hdel hdone]
  refine ⟨rfl, ?_, ?_⟩
  · intro hw
    simp [hw]
  · intro updateErr hw
    simp [hw]

/-- C19 at the failing input: the cluster version cannot be read, so `finalizeObject` returns
nil for the Pattern under deletion; the write that removes the finalizer is refused, and
`Reconcile` does not return. -/
theorem finalizer_removal_write_witness :
    (finalizeObject refusingCluster deletingPattern).ret = some none
      ∧ refusingCluster.statusUpdate
          (RemoveFinalizer deletingPattern refusingCluster.PatternFinalizer)
          = some "the object has been modified"
      ∧ (Reconcile refusingCluster exampleRequest).ret = none :=
  ⟨by decide, rfl,
   (finalizer_removal_write refusingCluster exampleRequest deletingPattern rfl (by decide)
      (by decide)).2.2 "the object has been modified" rfl⟩

/-! ## C13: a metadata read that fails -/

/-- C13, as the code has it: for a Pattern that is not being deleted and carries the finalizer,
when a metadata read fails `Reconcile` issues the reads up to the failing one and reports the
step "applying defaults" with that read's error, nothing else; the Pattern whose status it writes
is the copy as far as defaulting got: the live Pattern when the first read fails, with the
cluster ID overwritten when the second fails, with the cluster ID and the platform overwritten
when the third fails. -/
theorem defaults_failure_report (r : PatternReconciler) (req : Request) (inst : Pattern)
    (hget : r.clientGet req = .found inst)
    (hzero : IsZero inst.ObjectMeta.DeletionTimestamp = true)
    (hfin : ContainsFinalizer inst r.PatternFinalizer = true) :
    (∀ e, r.clusterVersionID = .error e →
      Reconcile r req
        = ⟨[Call.clientGet req, Call.getClusterVersion,
            Call.statusUpdate (setOutcome inst "applying defaults" (some e))],
           (actionPerformed r inst "applying defaults" (some e)).ret⟩) ∧
    (∀ clusterID e, r.clusterVersionID = .ok clusterID → r.infrastructurePlatform = .error e →
      Reconcile r req
        = ⟨[Call.clientGet req, Call.getClusterVersion, Call.getInfrastructure,
            Call.statusUpdate (setOutcome
              { inst with Status := { inst.Status with ClusterID := clusterID } }
              "applying defaults" (some e))],
           (actionPerformed r { inst with Status := { inst.Status with ClusterID := clusterID } }
              "applying defaults" (some e)).ret⟩) ∧
    (∀ clusterID platform e, r.clusterVersionID = .ok clusterID →
      r.infrastructurePlatform = .ok platform → r.ingressDomain = .error e →
      Reconcile r req
        = ⟨[Call.clientGet req, Call.getClusterVersion, Call.getInfrastructure, Call.getIngress,
            Call.statusUpdate (setOutcome
              { inst with Status :=
                  { inst.Status with ClusterID := clusterID, ClusterPlatform := platform } }
              "applying defaults" (some e))],
           (actionPerformed r
              { inst with Status :=
                  { inst.Status with ClusterID := clusterID, ClusterPlatform := platform } }
              "applying defaults" (some e)).ret⟩) := by
  have hrun := Reconcile_of_convergence r req inst hget hzero hfin
  rw [bind_eq_of_ret _ _ _ (call_ret _ _), call_calls] at hrun
  rw [hrun]
  unfold convergence
  rw [applyDefaults_eq]
  refine ⟨?_, ?_, ?_⟩
  · intro e hv
    simp [hv, bind, Run.bind, actionPerformed_calls]
  · intro clusterID e hv hi
    simp [hv, hi, bind, Run.bind, actionPerformed_calls]
  · intro clusterID platform e hv hi hg
    simp [hv, hi, hg, bind, Run.bind, actionPerformed_calls, metadataReads]

/-- C13 at a concrete input: on the cluster whose infrastructure cannot be read, the invocation
reports "applying defaults" after two reads, with that read's error and, the status write
succeeding, a delay of one minute. -/
theorem defaults_failure_report_witness :
    (Reconcile halfReadCluster exampleRequest).calls
        = [Call.clientGet exampleRequest, Call.getClusterVersion, Call.getInfrastructure,
           Call.statusUpdate (setOutcome
             { finalizedPattern with Status := { finalizedPattern.Status with ClusterID := "4f0c" } }
             "applying defaults"
             (some "infrastructures.config.openshift.io \"cluster\" not found"))]
      ∧ (Reconcile halfReadCluster exampleRequest).ret
        = some ({ Requeue := false, RequeueAfter := 1 * Minute },
            some "infrastructures.config.openshift.io \"cluster\" not found") :=
  have h := (defaults_failure_report halfReadCluster exampleRequest finalizedPattern rfl
    (by decide) (by decide)).2.1 "4f0c"
    "infrastructures.config.openshift.io \"cluster\" not found" rfl rfl
  ⟨congrArg Run.calls h, (congrArg Run.ret h).trans (by decide)⟩

/-- C13 as stated fails: the infrastructure read fails after the cluster version was read, and
the Pattern whose status is written carries the cluster ID that the aborted defaulting filled
in, not the one of the live Pattern. -/
theorem defaults_failure_counterexample :
    halfReadCluster.clientGet exampleRequest = .found finalizedPattern
      ∧ halfReadCluster.infrastructurePlatform
          = .error "infrastructures.config.openshift.io \"cluster\" not found"
      ∧ finalizedPattern.Status.ClusterID = ""
      ∧ ∃ p, (Reconcile halfReadCluster exampleRequest).calls.getLast?
            = some (Call.statusUpdate p)
          ∧ p.Status.LastStep = "applying defaults"
          ∧ p.Status.ClusterID = "4f0c"
          ∧ p.Status.ClusterID ≠ finalizedPattern.Status.ClusterID :=
  ⟨rfl, rfl, rfl,
   setOutcome
     { finalizedPattern with Status := { finalizedPattern.Status with ClusterID := "4f0c" } }
     "applying defaults" (some "infrastructures.config.openshift.io \"cluster\" not found"),
   by decide, by decide, by decide, by decide⟩

/-! ## C15: at most one action in an invocation -/

theorem countP_reads (r : PatternReconciler) (inst : Pattern) :
    (applyDefaults r inst).calls.countP (isMutation r) = 0 := by
  rw [List.countP_eq_zero]
  intro c hc
  have hread := applyDefaults_calls r inst c hc
  simp only [metadataReads, List.mem_cons, List.mem_singleton, List.not_mem_nil, or_false] at hread
  rcases hread with rfl | rfl | rfl <;> simp [isMutation]

theorem countP_report (r : PatternReconciler) (p : Pattern) (reason : String) (err : GoError) :
    (actionPerformed r p reason err).calls.countP (isMutation r) = 0 := by
  simp [actionPerformed_calls, isMutation]

theorem finalizeApplication_actions (r : PatternReconciler) (q : Pattern) :
    (finalizeApplication r q).calls.countP (isMutation r) ≤ 1
      ∧ ((finalizeApplication r q).ret = some none →
          (finalizeApplication r q).calls.countP (isMutation r) = 0) := by
  simp only [finalizeApplication, bind, Run.bind, pure, Run.pure, call, fault]
  repeat' split
  all_goals simp_all [isMutation, List.countP_cons]

theorem reconcileApplication_actions (r : PatternReconciler) (q : Pattern) :
    (reconcileApplication r q).calls.countP (isMutation r) ≤ 1 := by
  simp only [reconcileApplication, postValidation, bind, Run.bind, pure, Run.pure, call, fault]
  repeat' split
  all_goals simp_all [isMutation, List.countP_cons, actionPerformed_calls]

theorem reconcileNamespace_actions (r : PatternReconciler) (q : Pattern) :
    (reconcileNamespace r q).calls.countP (isMutation r) ≤ 1 := by
  have hnext := reconcileApplication_actions r q
  simp only [reconcileNamespace, bind, Run.bind, pure, Run.pure, call, fault]
  repeat' split
  all_goals simp_all [isMutation, List.countP_cons, actionPerformed_calls]

theorem reconcileSubscription_actions (r : PatternReconciler) (q : Pattern) :
    (reconcileSubscription r q).calls.countP (isMutation r) ≤ 1 := by
  have hnext := reconcileNamespace_actions r q
  simp only [reconcileSubscription, bind, Run.bind, pure, Run.pure, call, fault]
  repeat' split
  all_goals simp_all [isMutation, List.countP_cons, actionPerformed_calls]

theorem countP_bind_le {α β : Type} (r : PatternReconciler) (m : Run α) (f : α → Run β) (n : Nat)
    (hm : m.calls.countP (isMutation r) = 0)
    (hf : ∀ a, m.ret = some a → (f a).calls.countP (isMutation r) ≤ n) :
    (m >>= f).calls.countP (isMutation r) ≤ n := by
  rw [bind_calls]
  cases hret : m.ret with
  | none => simp [hm]
  | some a =>
    simp only [List.countP_append, hm, Nat.zero_add]
    exact hf a hret

theorem convergence_actions (r : PatternReconciler) (inst : Pattern) :
    (convergence r inst).calls.countP (isMutation r) ≤ 1 := by
  unfold convergence
  apply countP_bind_le _ _ _ _ (countP_reads r inst)
  rintro ⟨err, q⟩ _
  dsimp only
  split
  · simp [countP_report]
  · split
    · simp [countP_report]
    · exact reconcileSubscription_actions r q

theorem finalizeObject_actions (r : PatternReconciler) (inst : Pattern) :
    (finalizeObject r inst).calls.countP (isMutation r) ≤ 1
      ∧ ((finalizeObject r inst).ret = some none →
          (finalizeObject r inst).calls.countP (isMutation r) = 0) := by
  unfold finalizeObject
  split
  · cases hret : (applyDefaults r inst).ret with
    | none =>
      rw [bind_eq_of_fault _ _ hret]
      simp [countP_reads]
    | some res =>
      obtain ⟨err, q⟩ := res
      rw [bind_eq_of_ret _ _ _ hret]
      simp only [List.countP_append, countP_reads, Nat.zero_add]
      split
      · simp [pure_calls]
      · exact finalizeApplication_actions r q
  · simp [pure_calls]

theorem Reconcile_actions_deleting (r : PatternReconciler) (req : Request) (inst : Pattern)
    (hget : r.clientGet req = .found inst)
    (hdel : IsZero inst.ObjectMeta.DeletionTimestamp = false) :
    (Reconcile r req).calls.countP (isMutation r)
      = (finalizeObject r inst).calls.countP (isMutation r) := by
  cases hret : (finalizeObject r inst).ret with
  | none =>
    unfold Reconcile
    rw [bind_eq_of_ret _ _ _ (call_ret _ _), hget]
    simp only [hdel, Bool.false_eq_true, if_false]
    rw [bind_eq_of_fault _ _ hret]
    simp [call_calls, isMutation, List.countP_cons]
  | some e =>
    cases e with
    | none =>
      rw [Reconcile_of_finalized r req inst hget hdel hret]
      simp [isMutation, List.countP_cons, List.countP_append]
    | some e =>
      rw [Reconcile_of_pending r req inst e hget hdel hret]
      simp [isMutation, List.countP_cons, List.countP_append]

theorem Reconcile_mutations (r : PatternReconciler) (req : Request) :
    (Reconcile r req).calls.countP (isMutation r) ≤ 1
      ∧ ∀ inst, r.clientGet req = .found inst →
          IsZero inst.ObjectMeta.DeletionTimestamp = false →
          (finalizeObject r inst).ret = some none →
          (Reconcile r req).calls
              = Call.clientGet req :: ((finalizeObject r inst).calls
                  ++ [Call.statusUpdate (RemoveFinalizer inst r.PatternFinalizer)])
            ∧ (Reconcile r req).calls.countP (isMutation r) = 0 := by
  constructor
  · cases hget : r.clientGet req with
    | notFound e =>
      unfold Reconcile
      rw [bind_eq_of_ret _ _ _ (call_ret _ _), hget]
      simp [call_calls, pure_calls, isMutation]
    | failed e =>
      unfold Reconcile
      rw [bind_eq_of_ret _ _ _ (call_ret _ _), hget]
      simp [call_calls, pure_calls, isMutation]
    | found inst =>
      cases hzero : IsZero inst.ObjectMeta.DeletionTimestamp with
      | false =>
        rw [Reconcile_actions_deleting r req inst hget hzero]
        exact (finalizeObject_actions r inst).1
      | true =>
        cases hfin : ContainsFinalizer inst r.PatternFinalizer with
        | true =>
          rw [Reconcile_of_convergence r req inst hget hzero hfin,
            bind_eq_of_ret _ _ _ (call_ret _ _)]
          simp only [call_calls, List.singleton_append, List.countP_cons, isMutation,
            Bool.false_eq_true, if_false, Nat.add_zero]
          exact convergence_actions r inst
        | false =>
          unfold Reconcile
          rw [bind_eq_of_ret _ _ _ (call_ret _ _), hget]
          simp only [hzero, hfin, if_true, Bool.not_false]
          rw [bind_eq_of_ret _ _ _ (call_ret _ _)]
          simp [call_calls, actionPerformed_calls, isMutation, List.countP_cons]
  · intro inst hget hdel hdone
    refine ⟨by rw [Reconcile_of_finalized r req inst hget hdel hdone], ?_⟩
    rw [Reconcile_actions_deleting r req inst hget hdel]
    exact (finalizeObject_actions r inst).2 hdone

theorem any_not_contains_self (l : List String) :
    l.any (fun f => !l.contains f) = false := by
  rw [List.any_eq_false]
  intro f hf
  simp [hf]

theorem any_not_contains_append (l tail : List String) :
    l.any (fun f => !(l ++ tail).contains f) = false := by
  rw [List.any_eq_false]
  intro f hf
  simp [hf]

theorem reconcileApplication_keeps (r : PatternReconciler) (q : Pattern) :
    ∀ c ∈ (reconcileApplication r q).calls, dropsFinalizer q.ObjectMeta.Finalizers c = false := by
  simp only [reconcileApplication, postValidation, bind, Run.bind, pure, Run.pure, call, fault]
  repeat' split
  all_goals simp_all [dropsFinalizer, actionPerformed_calls, setOutcome_meta,
    any_not_contains_self]

theorem reconcileNamespace_keeps (r : PatternReconciler) (q : Pattern) :
    ∀ c ∈ (reconcileNamespace r q).calls, dropsFinalizer q.ObjectMeta.Finalizers c = false := by
  have hnext := reconcileApplication_keeps r q
  simp only [reconcileNamespace, bind, Run.bind, pure, Run.pure, call, fault]
  repeat' split
  all_goals simp_all [dropsFinalizer, actionPerformed_calls, setOutcome_meta,
    any_not_contains_self]

theorem reconcileSubscription_keeps (r : PatternReconciler) (q : Pattern) :
    ∀ c ∈ (reconcileSubscription r q).calls, dropsFinalizer q.ObjectMeta.Finalizers c = false := by
  have hnext := reconcileNamespace_keeps r q
  simp only [reconcileSubscription, bind, Run.bind, pure, Run.pure, call, fault]
  repeat' split
  all_goals simp_all [dropsFinalizer, actionPerformed_calls, setOutcome_meta,
    any_not_contains_self]

theorem fillDefaults_meta (o output : Pattern) (domain : String)
    (h : fillDefaults o domain = some output) : output.ObjectMeta = o.ObjectMeta := by
  unfold fillDefaults at h
  cases h1 : setClusterNames o domain with
  | none => simp [h1] at h
  | some o1 =>
    cases h2 : defaultHostname (defaultTargetRevision o1) with
    | none => simp [h1, h2] at h
    | some o2 =>
      simp only [h1, h2, Option.some.injEq] at h
      have hm := (defaultHostname_status _ _ h2).2
      rw [defaultTargetRevision_eq] at hm
      rw [setClusterNames_eq] at h1
      cases hname : (split domain '.')[1]? with
      | none => simp [hname] at h1
      | some clusterName =>
        simp only [hname, Option.map_some', Option.some.injEq] at h1
        rw [← h, defaultClusterGroupName_eq, defaultGitOpsConfig_eq]
        show o2.ObjectMeta = _
        rw [hm]
        show o1.ObjectMeta = _
        rw [← h1]

theorem applyDefaults_meta (r : PatternReconciler) (inst q : Pattern) (err : GoError)
    (h : (applyDefaults r inst).ret = some (err, q)) : q.ObjectMeta = inst.ObjectMeta := by
  rw [applyDefaults_eq] at h
  cases hv : r.clusterVersionID with
  | error e =>
    simp [hv] at h
    rw [← h.2]
  | ok clusterID =>
    cases hi : r.infrastructurePlatform with
    | error e =>
      simp [hv, hi] at h
      rw [← h.2]
    | ok platform =>
      cases hg : r.ingressDomain with
      | error e =>
        simp [hv, hi, hg] at h
        rw [← h.2]
      | ok domain =>
        simp only [hv, hi, hg] at h
        cases hfd : fillDefaults
            { inst with Status :=
                { inst.Status with ClusterID := clusterID, ClusterPlatform := platform } }
            domain with
        | none => simp [hfd] at h
        | some o =>
          simp [hfd] at h
          rw [← h.2]
          have hfm := fillDefaults_meta _ _ _ hfd
          exact hfm

theorem convergence_keeps (r : PatternReconciler) (inst : Pattern) :
    ∀ c ∈ (convergence r inst).calls, dropsFinalizer inst.ObjectMeta.Finalizers c = false := by
  unfold convergence
  apply forall_calls_bind
  · intro c hc
    have hread := applyDefaults_calls r inst c hc
    simp only [metadataReads, List.mem_cons, List.mem_singleton, List.not_mem_nil, or_false] at hread
    rcases hread with rfl | rfl | rfl <;> rfl
  · rintro ⟨err, q⟩ hret
    have hmeta := applyDefaults_meta r inst q err hret
    dsimp only
    rw [← hmeta]
    split
    · simp [actionPerformed_calls, dropsFinalizer, setOutcome_meta, any_not_contains_self]
    · split
      · simp [actionPerformed_calls, dropsFinalizer, setOutcome_meta, any_not_contains_self]
      · exact reconcileSubscription_keeps r q

theorem countP_isAction_le (r : PatternReconciler) (finalizers : List String)
    (calls : List Call) :
    calls.countP (isAction r finalizers)
      ≤ calls.countP (isMutation r) + calls.countP (dropsFinalizer finalizers) := by
  induction calls with
  | nil => simp
  | cons c cs ih =>
    simp only [List.countP_cons, isAction]
    by_cases hm : isMutation r c = true <;> by_cases hd : dropsFinalizer finalizers c = true <;>
      simp [hm, hd] <;> omega

theorem Reconcile_actions (r : PatternReconciler) (req : Request) (inst : Pattern)
    (hget : r.clientGet req = .found inst) :
    (Reconcile r req).calls.countP (isAction r inst.ObjectMeta.Finalizers) ≤ 1 := by
  have hle := countP_isAction_le r inst.ObjectMeta.Finalizers (Reconcile r req).calls
  have hmut := (Reconcile_mutations r req).1
  have hkeep : ∀ calls : List Call,
      (∀ c ∈ calls, dropsFinalizer inst.ObjectMeta.Finalizers c = false) →
      calls.countP (dropsFinalizer inst.ObjectMeta.Finalizers) = 0 := by
    intro calls h
    rw [List.countP_eq_zero]
    intro c hc
    simp [h c hc]
  have hfinCalls : ∀ c ∈ (finalizeObject r inst).calls,
      dropsFinalizer inst.ObjectMeta.Finalizers c = false := by
    intro c hc
    cases c with
    | statusUpdate p => exact absurd rfl (finalizeObject_no_status r inst _ hc p)
    | _ => rfl
  cases hzero : IsZero inst.ObjectMeta.DeletionTimestamp with
  | true =>
    have hzero2 : ∀ c ∈ (Reconcile r req).calls,
        dropsFinalizer inst.ObjectMeta.Finalizers c = false := by
      cases hfin : ContainsFinalizer inst r.PatternFinalizer with
      | true =>
        rw [Reconcile_of_convergence r req inst hget hzero hfin,
          bind_eq_of_ret _ _ _ (call_ret _ _), call_calls]
        intro c hc
        rcases List.mem_append.mp hc with h | h
        · simp at h
          subst h
          rfl
        · exact convergence_keeps r inst c h
      | false =>
        have hcalls : (Reconcile r req).calls
            = [Call.clientGet req, Call.clientUpdate (AddFinalizer inst r.PatternFinalizer),
               Call.statusUpdate (setOutcome (AddFinalizer inst r.PatternFinalizer)
                 "updated finalizer" (r.clientUpdate (AddFinalizer inst r.PatternFinalizer)))] := by
          unfold Reconcile
          rw [bind_eq_of_ret _ _ _ (call_ret _ _), hget]
          simp only [hzero, hfin, if_true, Bool.not_false]
          rw [bind_eq_of_ret _ _ _ (call_ret _ _)]
          simp [call_calls, actionPerformed_calls]
        rw [hcalls]
        intro c hc
        simp only [List.mem_cons, List.mem_singleton, List.not_mem_nil, or_false] at hc
        rcases hc with rfl | rfl | rfl
        · rfl
        · rfl
        · simp only [dropsFinalizer, setOutcome_meta, AddFinalizer, hfin, Bool.false_eq_true,
            if_false]
          exact any_not_contains_append _ _
    have := hkeep _ hzero2
    omega
  | false =>
    cases hret : (finalizeObject r inst).ret with
    | none =>
      have hcalls : (Reconcile r req).calls
          = Call.clientGet req :: (finalizeObject r inst).calls := by
        unfold Reconcile
        rw [bind_eq_of_ret _ _ _ (call_ret _ _), hget]
        simp only [hzero, Bool.false_eq_true, if_false]
        rw [bind_eq_of_fault _ _ hret]
        simp [call_calls]
      have hdrops : (Reconcile r req).calls.countP (dropsFinalizer inst.ObjectMeta.Finalizers)
          = 0 := by
        apply hkeep
        rw [hcalls]
        intro c hc
        rcases List.mem_cons.mp hc with h | h
        · subst h
          rfl
        · exact hfinCalls c h
      omega
    | some e =>
      cases e with
      | some e =>
        have hdrops : (Reconcile r req).calls.countP (dropsFinalizer inst.ObjectMeta.Finalizers)
            = 0 := by
          apply hkeep
          rw [Reconcile_of_pending r req inst e hget hzero hret]
          intro c hc
          simp only [List.mem_cons, List.mem_append, List.mem_singleton, List.not_mem_nil,
            or_false] at hc
          rcases hc with h | h | h
          · subst h
            rfl
          · exact hfinCalls c h
          · subst h
            simp [dropsFinalizer, setOutcome_meta, any_not_contains_self]
        omega
      | none =>
        have hzeroMut := ((Reconcile_mutations r req).2 inst hget hzero hret).2
        have hdrops : (Reconcile r req).calls.countP (dropsFinalizer inst.ObjectMeta.Finalizers)
            ≤ 1 := by
          rw [Reconcile_of_finalized r req inst hget hzero hret]
          simp only [List.countP_cons, List.countP_append, List.countP_nil, hkeep _ hfinCalls,
            dropsFinalizer]
          split <;> simp
        omega

/-- C15: every invocation of `Reconcile` issues at most one state-advancing action. Counting the
write that adds the finalizer, a create, an update that changes something, a delete, and the
write through the status client that removes a finalizer of the Pattern read (status reports,
which keep the finalizers, are not counted), the invocation issues at most one of them; in
particular at most one mutating call, and none on the path that removes the finalizer. -/
theorem at_most_one_action (r : PatternReconciler) (req : Request) :
    (∀ inst, r.clientGet req = .found inst →
        (Reconcile r req).calls.countP (isAction r inst.ObjectMeta.Finalizers) ≤ 1)
      ∧ (Reconcile r req).calls.countP (isMutation r) ≤ 1
      ∧ ∀ inst, r.clientGet req = .found inst →
          IsZero inst.ObjectMeta.DeletionTimestamp = false →
          (finalizeObject r inst).ret = some none →
          (Reconcile r req).calls
              = Call.clientGet req :: ((finalizeObject r inst).calls
                  ++ [Call.statusUpdate (RemoveFinalizer inst r.PatternFinalizer)])
            ∧ (Reconcile r req).calls.countP (isMutation r) = 0 :=
  ⟨Reconcile_actions r req, (Reconcile_mutations r req).1, (Reconcile_mutations r req).2⟩

/-- C15 at concrete inputs: adding the finalizer is one action, deleting the Application of the
Pattern under deletion is one action, and so is the write that removes the finalizer. -/
theorem at_most_one_action_witness :
    (Reconcile (exampleCluster examplePattern) exampleRequest).calls.countP
        (isAction (exampleCluster examplePattern) examplePattern.ObjectMeta.Finalizers) ≤ 1
      ∧ (Reconcile (exampleCluster examplePattern) exampleRequest).calls.countP
        (isAction (exampleCluster examplePattern) examplePattern.ObjectMeta.Finalizers) = 1
      ∧ (Reconcile (steadyCluster deletingPattern "Synced") exampleRequest).calls.countP
        (isAction (steadyCluster deletingPattern "Synced")
          deletingPattern.ObjectMeta.Finalizers) = 1
      ∧ (Reconcile unreadableCluster exampleRequest).calls.countP
        (isAction unreadableCluster deletingPattern.ObjectMeta.Finalizers) = 1
      ∧ (Reconcile unreadableCluster exampleRequest).calls.countP
        (isMutation unreadableCluster) = 0 :=
  ⟨(at_most_one_action (exampleCluster examplePattern) exampleRequest).1 examplePattern rfl,
   by decide, by decide, by decide, by decide⟩

/-! ## C16: an Application or a Subscription owned by someone else -/

theorem reconcileApplication_foreign (r : PatternReconciler) (q : Pattern) (app : Application)
    (happ : (r.getApplication (r.applicationName q)).2 = some app)
    (hforeign : r.ownedBySameApp (r.setOwnerReferenceApp q (r.newApplication q)) app = false) :
    reconcileApplication r q
      = ⟨[Call.getApplication (r.applicationName q),
          Call.statusUpdate (setOutcome q "create application" (some (ownershipConflict r q)))],
         (actionPerformed r q "create application" (some (ownershipConflict r q))).ret⟩ := by
  simp [reconcileApplication, bind, Run.bind, call, happ, hforeign, actionPerformed_calls,
    ownershipConflict]

theorem reconcileSubscription_foreign (r : PatternReconciler) (q : Pattern) (sub : Subscription)
    (hsub : (r.getSubscription (r.setOwnerReferenceSub q (r.newSubscription q)).Name
      (r.setOwnerReferenceSub q (r.newSubscription q)).Namespace).2 = some sub)
    (hforeign : r.ownedBySameSub (r.setOwnerReferenceSub q (r.newSubscription q)) sub = false) :
    reconcileSubscription r q
      = ⟨Call.getSubscription (r.setOwnerReferenceSub q (r.newSubscription q)).Name
            (r.setOwnerReferenceSub q (r.newSubscription q)).Namespace
          :: (reconcileNamespace r q).calls,
         (reconcileNamespace r q).ret⟩ := by
  simp [reconcileSubscription, bind, Run.bind, call, hsub, hforeign]

theorem reconcileSubscription_unchanged (r : PatternReconciler) (q : Pattern)
    (sub : Subscription)
    (hsub : (r.getSubscription (r.setOwnerReferenceSub q (r.newSubscription q)).Name
      (r.setOwnerReferenceSub q (r.newSubscription q)).Namespace).2 = some sub)
    (hown : r.ownedBySameSub (r.setOwnerReferenceSub q (r.newSubscription q)) sub = true)
    (hsame :
      (r.updateSubscription (r.setOwnerReferenceSub q (r.newSubscription q)) sub).2 = false) :
    reconcileSubscription r q
      = ⟨Call.getSubscription (r.setOwnerReferenceSub q (r.newSubscription q)).Name
            (r.setOwnerReferenceSub q (r.newSubscription q)).Namespace
          :: Call.updateSubscription (r.setOwnerReferenceSub q (r.newSubscription q)) sub
          :: (reconcileNamespace r q).calls,
         (reconcileNamespace r q).ret⟩ := by
  simp [reconcileSubscription, bind, Run.bind, call, hsub, hown, hsame]

theorem reconcileNamespace_ready (r : PatternReconciler) (q : Pattern)
    (hns : r.haveNamespace r.applicationNamespace = true) :
    reconcileNamespace r q
      = ⟨Call.haveNamespace r.applicationNamespace :: (reconcileApplication r q).calls,
         (reconcileApplication r q).ret⟩ := by
  simp [reconcileNamespace, bind, Run.bind, call, hns]

theorem reconcileNamespace_head (r : PatternReconciler) (q : Pattern) :
    (reconcileNamespace r q).calls.head? = some (Call.haveNamespace r.applicationNamespace) := by
  unfold reconcileNamespace
  rw [bind_eq_of_ret _ _ _ (call_ret _ _)]
  simp [call_calls]

/-- C16, as the code has it: for a Pattern that is not being deleted, carries the finalizer and
passes defaulting and pre-validation, (1) when the Subscription stage takes no action, the
namespace exists and the Application exists but is not owned, `Reconcile` stops there: its last
call reports the step "create application" with the error `We no longer own Application "<name>"`,
it issues no mutating call and no call that updates, creates or deletes an Application, and, the
status write succeeding, it requeues after one minute with that error; (2) when the Subscription
exists but is not owned, no update of it is issued and the pipeline goes on with the
namespace-readiness check. -/
theorem foreign_resources (r : PatternReconciler) (req : Request) (inst q : Pattern)
    (hget : r.clientGet req = .found inst)
    (hzero : IsZero inst.ObjectMeta.DeletionTimestamp = true)
    (hfin : ContainsFinalizer inst r.PatternFinalizer = true)
    (hq : (applyDefaults r inst).ret = some (none, q))
    (hpre : preValidation q = none) :
    (∀ sub app,
      (r.getSubscription (r.setOwnerReferenceSub q (r.newSubscription q)).Name
        (r.setOwnerReferenceSub q (r.newSubscription q)).Namespace).2 = some sub →
      (r.ownedBySameSub (r.setOwnerReferenceSub q (r.newSubscription q)) sub = false
        ∨ (r.updateSubscription (r.setOwnerReferenceSub q (r.newSubscription q)) sub).2 = false) →
      r.haveNamespace r.applicationNamespace = true →
      (r.getApplication (r.applicationName q)).2 = some app →
      r.ownedBySameApp (r.setOwnerReferenceApp q (r.newApplication q)) app = false →
        (Reconcile r req).calls.getLast?
            = some (Call.statusUpdate
                (setOutcome q "create application" (some (ownershipConflict r q))))
          ∧ (∀ c ∈ (Reconcile r req).calls, isMutation r c = false)
          ∧ (∀ c ∈ (Reconcile r req).calls, isApplicationWrite c = false)
          ∧ (Reconcile r req).ret
              = (actionPerformed r q "create application" (some (ownershipConflict r q))).ret
          ∧ (r.statusUpdate (setOutcome q "create application" (some (ownershipConflict r q)))
                = none →
              (Reconcile r req).ret
                = some ({ Requeue := false, RequeueAfter := 1 * Minute },
                    some (ownershipConflict r q)))) ∧
    (∀ sub,
      (r.getSubscription (r.setOwnerReferenceSub q (r.newSubscription q)).Name
        (r.setOwnerReferenceSub q (r.newSubscription q)).Namespace).2 = some sub →
      r.ownedBySameSub (r.setOwnerReferenceSub q (r.newSubscription q)) sub = false →
        Reconcile r req
            = ⟨Call.clientGet req :: (metadataReads ++
                Call.getSubscription (r.setOwnerReferenceSub q (r.newSubscription q)).Name
                  (r.setOwnerReferenceSub q (r.newSubscription q)).Namespace
                :: (reconcileNamespace r q).calls),
               (reconcileNamespace r q).ret⟩
          ∧ (reconcileNamespace r q).calls.head?
              = some (Call.haveNamespace r.applicationNamespace)) := by
  have hrun := Reconcile_of_convergence r req inst hget hzero hfin
  rw [bind_eq_of_ret _ _ _ (call_ret _ _), convergence_of_defaults r inst q hq hpre,
    call_calls] at hrun
  constructor
  · intro sub app hsub hstage hns happ hforeign
    have hnsRun := reconcileNamespace_ready r q hns
    rw [reconcileApplication_foreign r q app happ hforeign] at hnsRun
    have hret : (Reconcile r req).ret
        = (actionPerformed r q "create application" (some (ownershipConflict r q))).ret := by
      rw [hrun]
      by_cases hown : r.ownedBySameSub (r.setOwnerReferenceSub q (r.newSubscription q)) sub = true
      · have hsame := hstage.resolve_left (by simp [hown])
        rw [reconcileSubscription_unchanged r q sub hsub hown hsame, hnsRun]
      · have hown2 : r.ownedBySameSub (r.setOwnerReferenceSub q (r.newSubscription q)) sub
            = false := by simpa using hown
        rw [reconcileSubscription_foreign r q sub hsub hown2, hnsRun]
    have hcalls : ∃ pre, (Reconcile r req).calls
        = pre ++ [Call.statusUpdate
            (setOutcome q "create application" (some (ownershipConflict r q)))]
        ∧ (∀ c ∈ pre, isMutation r c = false) ∧ (∀ c ∈ pre, isApplicationWrite c = false) := by
      rw [hrun]
      by_cases hown : r.ownedBySameSub (r.setOwnerReferenceSub q (r.newSubscription q)) sub = true
      · have hsame := hstage.resolve_left (by simp [hown])
        rw [reconcileSubscription_unchanged r q sub hsub hown hsame, hnsRun]
        refine ⟨Call.clientGet req :: (metadataReads ++
          [Call.getSubscription (r.setOwnerReferenceSub q (r.newSubscription q)).Name
            (r.setOwnerReferenceSub q (r.newSubscription q)).Namespace,
           Call.updateSubscription (r.setOwnerReferenceSub q (r.newSubscription q)) sub,
           Call.haveNamespace r.applicationNamespace,
           Call.getApplication (r.applicationName q)]), by simp, ?_, ?_⟩
        · intro c hc
          simp only [metadataReads, List.cons_append, List.nil_append, List.mem_cons,
            List.not_mem_nil, or_false] at hc
          rcases hc with rfl | rfl | rfl | rfl | rfl | rfl | rfl | rfl <;>
            simp [isMutation, hsame]
        · intro c hc
          simp only [metadataReads, List.cons_append, List.nil_append, List.mem_cons,
            List.not_mem_nil, or_false] at hc
          rcases hc with rfl | rfl | rfl | rfl | rfl | rfl | rfl | rfl <;> rfl
      · have hown2 : r.ownedBySameSub (r.setOwnerReferenceSub q (r.newSubscription q)) sub
            = false := by simpa using hown
        rw [reconcileSubscription_foreign r q sub hsub hown2, hnsRun]
        refine ⟨Call.clientGet req :: (metadataReads ++
          [Call.getSubscription (r.setOwnerReferenceSub q (r.newSubscription q)).Name
            (r.setOwnerReferenceSub q (r.newSubscription q)).Namespace,
           Call.haveNamespace r.applicationNamespace,
           Call.getApplication (r.applicationName q)]), by simp, ?_, ?_⟩
        · intro c hc
          simp only [metadataReads, List.cons_append, List.nil_append, List.mem_cons,
            List.not_mem_nil, or_false] at hc
          rcases hc with rfl | rfl | rfl | rfl | rfl | rfl | rfl <;> simp [isMutation]
        · intro c hc
          simp only [metadataReads, List.cons_append, List.nil_append, List.mem_cons,
            List.not_mem_nil, or_false] at hc
          rcases hc with rfl | rfl | rfl | rfl | rfl | rfl | rfl <;> rfl
    obtain ⟨pre, hpre2, hmut, happw⟩ := hcalls
    refine ⟨?_, ?_, ?_, hret, ?_⟩
    · rw [hpre2]
      simp
    · intro c hc
      rw [hpre2] at hc
      rcases List.mem_append.mp hc with h | h
      · exact hmut c h
      · simp at h
        subst h
        rfl
    · intro c hc
      rw [hpre2] at hc
      rcases List.mem_append.mp hc with h | h
      · exact happw c h
      · simp at h
        subst h
        rfl
    · intro hwrite
      rw [hret]
      exact actionPerformed_ret_error r q "create application" _ hwrite
  · intro sub hsub hforeign
    rw [hrun, reconcileSubscription_foreign r q sub hsub hforeign]
    exact ⟨rfl, reconcileNamespace_head r q⟩

/-- C16 at a concrete input: the Pattern and its Application live in the same namespace, so the
target Application carries the Pattern's owner reference, while the Application the cluster holds
names another Pattern as its owner; the invocation reports the ownership conflict and is requeued
after one minute. -/
theorem foreign_resources_witness :
    finalizedPattern.ObjectMeta.Namespace
        = (foreignCluster.newApplication (qualifiedExample finalizedPattern.ObjectMeta)).Namespace
      ∧ (foreignCluster.setOwnerReferenceApp (qualifiedExample finalizedPattern.ObjectMeta)
          (foreignCluster.newApplication
            (qualifiedExample finalizedPattern.ObjectMeta))).OwnerReferences
          = [ownerReferenceOf finalizedPattern]
      ∧ (foreignApplication.OwnerReferences.map (fun x => x.Name)) = ["other"]
      ∧ (Reconcile foreignCluster exampleRequest).ret
          = some ({ Requeue := false, RequeueAfter := 1 * Minute },
              some "We no longer own Application \"demo-default\"") :=
  ⟨by decide, by decide, by decide,
   (((foreign_resources foreignCluster exampleRequest finalizedPattern
      (qualifiedExample finalizedPattern.ObjectMeta) rfl (by decide) (by decide) (by decide)
      (by decide)).1 ownedSubscription foreignApplication (by decide) (Or.inr (by decide))
      (by decide) (by decide) (by decide)).2.2.2.2 (by decide)).trans (by decide)⟩

/-- C16 as stated fails: the Pattern reaches the application stage; it lives in the namespace of
its Application, whose target carries the Pattern's owner reference, and the Application the
cluster holds names another Pattern as its owner, so `ownedBySame` is false; but the status
write of the report is refused, and `Reconcile` returns the empty result, with no delay,
together with the error of the write. -/
theorem foreign_application_counterexample :
    foreignRefusingCluster.clientGet exampleRequest = .found finalizedPattern
      ∧ IsZero finalizedPattern.ObjectMeta.DeletionTimestamp = true
      ∧ finalizedPattern.ObjectMeta.Namespace
          = (foreignRefusingCluster.newApplication
              (qualifiedExample finalizedPattern.ObjectMeta)).Namespace
      ∧ (foreignRefusingCluster.setOwnerReferenceApp
            (qualifiedExample finalizedPattern.ObjectMeta)
            (foreignRefusingCluster.newApplication
              (qualifiedExample finalizedPattern.ObjectMeta))).OwnerReferences
          = [ownerReferenceOf finalizedPattern]
      ∧ (foreignApplication.OwnerReferences.map (fun x => x.Name)) = ["other"]
      ∧ Call.getApplication "demo-default"
          ∈ (Reconcile foreignRefusingCluster exampleRequest).calls
      ∧ (foreignRefusingCluster.getApplication "demo-default").2 = some foreignApplication
      ∧ foreignRefusingCluster.ownedBySameApp
          (foreignRefusingCluster.setOwnerReferenceApp
            (qualifiedExample finalizedPattern.ObjectMeta)
            (foreignRefusingCluster.newApplication (qualifiedExample finalizedPattern.ObjectMeta)))
          foreignApplication = false
      ∧ (Reconcile foreignRefusingCluster exampleRequest).ret
          = some ({ Requeue := false, RequeueAfter := 0 }, some "the object has been modified")
      ∧ (0 : Duration) ≠ 1 * Minute :=
  ⟨rfl, by decide, by decide, by decide, by decide, by decide, rfl, by decide, by decide,
   by decide⟩

/-! ## C17: the cluster facts of the status -/

theorem fillDefaults_status (o output : Pattern) (domain : String)
    (h : fillDefaults o domain = some output) :
    ∃ clusterName, (split domain '.')[1]? = some clusterName
      ∧ output.Status
          = { o.Status with ClusterName := clusterName, ClusterDomain := domain } := by
  unfold fillDefaults at h
  cases h1 : setClusterNames o domain with
  | none => simp [h1] at h
  | some o1 =>
    cases h2 : defaultHostname (defaultTargetRevision o1) with
    | none => simp [h1, h2] at h
    | some o2 =>
      simp only [h1, h2, Option.some.injEq] at h
      have hs := (defaultHostname_status _ _ h2).1
      rw [defaultTargetRevision_eq] at hs
      rw [setClusterNames_eq] at h1
      cases hname : (split domain '.')[1]? with
      | none => simp [hname] at h1
      | some clusterName =>
        simp only [hname, Option.map_some', Option.some.injEq] at h1
        refine ⟨clusterName, rfl, ?_⟩
        rw [← h, defaultClusterGroupName_eq, defaultGitOpsConfig_eq]
        show o2.Status = _
        rw [hs]
        show o1.Status = _
        rw [← h1]

/-- C17, as the code has it: when the three metadata reads succeed, the ingress domain has at
least two labels, and the hostname is set or the target repository has at least three segments,
`applyDefaults` returns, without error, a copy whose status has the cluster ID, the platform and
the domain that were read, whatever the input status held, and as cluster name the second
`.`-separated label of the domain; the step, the error and the version of the status are
kept. -/
theorem applyDefaults_cluster_facts (r : PatternReconciler) (input : Pattern)
    (clusterID platform domain : String)
    (hversion : r.clusterVersionID = .ok clusterID)
    (hinfra : r.infrastructurePlatform = .ok platform)
    (hingress : r.ingressDomain = .ok domain)
    (hlabels : 1 < (split domain '.').length)
    (hsegments : input.Spec.GitConfig.Hostname ≠ ""
      ∨ 2 < (split input.Spec.GitConfig.TargetRepo '/').length) :
    ∃ output, (applyDefaults r input).ret = some (none, output)
      ∧ output.Status.ClusterID = clusterID
      ∧ output.Status.ClusterPlatform = platform
      ∧ output.Status.ClusterDomain = domain
      ∧ (split domain '.')[1]? = some output.Status.ClusterName
      ∧ output.Status.LastStep = input.Status.LastStep
      ∧ output.Status.LastError = input.Status.LastError
      ∧ output.Status.Version = input.Status.Version := by
  obtain ⟨output, hout, _⟩ := fillDefaults_fields
    { input with Status := { input.Status with ClusterID := clusterID, ClusterPlatform := platform } }
    domain hlabels hsegments
  obtain ⟨clusterName, hname, hstatus⟩ := fillDefaults_status _ _ _ hout
  refine ⟨output, ?_, ?_, ?_, ?_, ?_, ?_, ?_, ?_⟩
  · rw [applyDefaults_eq]
    simp [hversion, hinfra, hingress, hout]
  all_goals simp [hstatus, hname]

/-- C17 at the input of the specification: the ingress domain
`apps.mycluster.blueprints.rhecoeng.com` gives the cluster name `mycluster`. -/
theorem applyDefaults_cluster_facts_witness :
    ∃ output, (applyDefaults (exampleCluster examplePattern) examplePattern).ret
        = some (none, output)
      ∧ output.Status.ClusterID = "4f0c"
      ∧ output.Status.ClusterPlatform = "AWS"
      ∧ output.Status.ClusterDomain = "apps.mycluster.blueprints.rhecoeng.com"
      ∧ output.Status.ClusterName = "mycluster" := by
  obtain ⟨output, hret, hid, hplatform, hdomain, hname, _⟩ :=
    applyDefaults_cluster_facts (exampleCluster examplePattern) examplePattern "4f0c" "AWS"
      "apps.mycluster.blueprints.rhecoeng.com" rfl rfl rfl (by decide) (Or.inr (by decide))
  refine ⟨output, hret, hid, hplatform, hdomain, ?_⟩
  have h1 : (split "apps.mycluster.blueprints.rhecoeng.com" '.')[1]? = some "mycluster" := by
    decide
  rw [h1] at hname
  exact (Option.some.inj hname).symm

/-- C17 as stated fails: the three metadata reads succeed, but the ingress domain `localhost`
has no second label, so `applyDefaults` panics on `ss[1]` and there is no output. -/
theorem applyDefaults_cluster_facts_counterexample :
    oneLabelCluster.clusterVersionID = .ok "4f0c"
      ∧ oneLabelCluster.infrastructurePlatform = .ok "AWS"
      ∧ oneLabelCluster.ingressDomain = .ok "localhost"
      ∧ split "localhost" '.' = ["localhost"]
      ∧ (applyDefaults oneLabelCluster finalizedPattern).ret = none :=
  ⟨rfl, rfl, rfl, by decide, by decide⟩

/-! ## C18: the hostname of an accepted target repository -/

theorem splitChars_ne_nil (sep : Char) (l : List Char) : splitChars sep l ≠ [] := by
  cases l with
  | nil => simp [splitChars]
  | cons c cs =>
    unfold splitChars
    split
    · simp
    · split <;> simp

theorem splitChars_cons_sep (sep : Char) (l : List Char) :
    splitChars sep (sep :: l) = [] :: splitChars sep l := by
  simp [splitChars]

theorem splitChars_cons_ne (sep c : Char) (l : List Char) (h : c ≠ sep) :
    ∃ seg rest, splitChars sep l = seg :: rest
      ∧ splitChars sep (c :: l) = (c :: seg) :: rest := by
  cases hl : splitChars sep l with
  | nil => exact absurd hl (splitChars_ne_nil sep l)
  | cons seg rest =>
    refine ⟨seg, rest, rfl, ?_⟩
    rw [splitChars, if_neg h, hl]

theorem splitChars_head (sep : Char) (l : List Char) :
    (splitChars sep l).head? = some (l.takeWhile (fun c => c != sep)) := by
  induction l with
  | nil => simp [splitChars]
  | cons c cs ih =>
    by_cases h : c = sep
    · subst h
      simp [splitChars_cons_sep]
    · obtain ⟨seg, rest, hl, hcons⟩ := splitChars_cons_ne sep c cs h
      rw [hl] at ih
      simp only [List.head?_cons, Option.some.injEq] at ih
      rw [hcons]
      simp [List.takeWhile_cons, h, ih]

theorem splitChars_https (rest : List Char) :
    splitChars '/' ("https://".data ++ rest)
      = ['h', 't', 't', 'p', 's', ':'] :: [] :: splitChars '/' rest := by
  cases hl : splitChars '/' rest with
  | nil => exact absurd hl (splitChars_ne_nil _ _)
  | cons seg tail =>
    show splitChars '/' ('h' :: 't' :: 't' :: 'p' :: 's' :: ':' :: '/' :: '/' :: rest) = _
    simp [splitChars, hl]

theorem splitChars_http (rest : List Char) :
    splitChars '/' ("http://".data ++ rest)
      = ['h', 't', 't', 'p', ':'] :: [] :: splitChars '/' rest := by
  cases hl : splitChars '/' rest with
  | nil => exact absurd hl (splitChars_ne_nil _ _)
  | cons seg tail =>
    show splitChars '/' ('h' :: 't' :: 't' :: 'p' :: ':' :: '/' :: '/' :: rest) = _
    simp [splitChars, hl]

theorem split_of_scheme (repo scheme : String) (first : List Char)
    (hsplit : ∀ rest, splitChars '/' (scheme.data ++ rest)
      = first :: [] :: splitChars '/' rest)
    (hstarts : hasPrefix repo scheme = true) :
    2 < (split repo '/').length
      ∧ (split repo '/')[2]?
          = some (String.mk ((repo.data.drop scheme.data.length).takeWhile (fun c => c != '/'))) := by
  unfold hasPrefix at hstarts
  obtain ⟨rest, hrest⟩ := List.isPrefixOf_iff_prefix.mp hstarts
  have hdrop : repo.data.drop scheme.data.length = rest := by
    rw [← hrest]
    simp
  unfold split
  rw [← hrest, hsplit rest, ← hrest] at *
  have hhead := splitChars_head '/' rest
  cases hl : splitChars '/' rest with
  | nil => exact absurd hl (splitChars_ne_nil _ _)
  | cons seg tail =>
    rw [hl] at hhead
    simp only [List.head?_cons, Option.some.injEq] at hhead
    simp [hhead]

theorem preValidation_accepted (p : Pattern) (hok : preValidation p = none) :
    hasPrefix p.Spec.GitConfig.TargetRepo "https://" = true
      ∨ hasPrefix p.Spec.GitConfig.TargetRepo "http://" = true := by
  unfold preValidation at hok
  split at hok
  · exact absurd hok (by simp)
  · split at hok
    · rename_i h
      simpa using h
    · exact absurd hok (by simp)

/-- C18: for every target repository that `preValidation` accepts, splitting it on `/` yields at
least three segments, so deriving the hostname (segment 2) does not panic; the segment is the
text between the `//` of the scheme and the next `/`, or the end of the repository; that text is
the hostname the defaulting step writes when none is set, and the hostname of the Pattern that
`applyDefaults` returns whenever the metadata reads succeed with a domain of two labels or
more. -/
theorem accepted_repo_hostname (p : Pattern) (hok : preValidation p = none) :
    2 < (split p.Spec.GitConfig.TargetRepo '/').length
      ∧ defaultHostname p ≠ none
      ∧ (hasPrefix p.Spec.GitConfig.TargetRepo "https://" = true →
          (split p.Spec.GitConfig.TargetRepo '/')[2]?
            = some (String.mk
                ((p.Spec.GitConfig.TargetRepo.data.drop 8).takeWhile (fun c => c != '/'))))
      ∧ (hasPrefix p.Spec.GitConfig.TargetRepo "http://" = true →
          (split p.Spec.GitConfig.TargetRepo '/')[2]?
            = some (String.mk
                ((p.Spec.GitConfig.TargetRepo.data.drop 7).takeWhile (fun c => c != '/'))))
      ∧ (p.Spec.GitConfig.Hostname = "" →
          hasPrefix p.Spec.GitConfig.TargetRepo "https://" = true →
          defaultHostname p = some { p with Spec := { p.Spec with GitConfig :=
            { p.Spec.GitConfig with
              Hostname := textAfterScheme p.Spec.GitConfig.TargetRepo 8 } } })
      ∧ (p.Spec.GitConfig.Hostname = "" →
          hasPrefix p.Spec.GitConfig.TargetRepo "http://" = true →
          defaultHostname p = some { p with Spec := { p.Spec with GitConfig :=
            { p.Spec.GitConfig with
              Hostname := textAfterScheme p.Spec.GitConfig.TargetRepo 7 } } })
      ∧ (p.Spec.GitConfig.Hostname ≠ "" → defaultHostname p = some p)
      ∧ (∀ (r : PatternReconciler) (clusterID platform domain : String),
          r.clusterVersionID = .ok clusterID → r.infrastructurePlatform = .ok platform →
          r.ingressDomain = .ok domain → 1 < (split domain '.').length →
          ∃ output, (applyDefaults r p).ret = some (none, output)
            ∧ (p.Spec.GitConfig.Hostname ≠ "" →
                output.Spec.GitConfig.Hostname = p.Spec.GitConfig.Hostname)
            ∧ (p.Spec.GitConfig.Hostname = "" →
                hasPrefix p.Spec.GitConfig.TargetRepo "https://" = true →
                output.Spec.GitConfig.Hostname
                  = textAfterScheme p.Spec.GitConfig.TargetRepo 8)
            ∧ (p.Spec.GitConfig.Hostname = "" →
                hasPrefix p.Spec.GitConfig.TargetRepo "http://" = true →
                output.Spec.GitConfig.Hostname
                  = textAfterScheme p.Spec.GitConfig.TargetRepo 7)) := by
  have hs := fun h => split_of_scheme p.Spec.GitConfig.TargetRepo "https://" _ splitChars_https h
  have hp := fun h => split_of_scheme p.Spec.GitConfig.TargetRepo "http://" _ splitChars_http h
  have hlen : 2 < (split p.Spec.GitConfig.TargetRepo '/').length := by
    rcases preValidation_accepted p hok with h | h
    · exact (hs h).1
    · exact (hp h).1
  refine ⟨hlen, ?_, fun h => (hs h).2, fun h => (hp h).2, ?_, ?_, ?_, ?_⟩
  · rw [defaultHostname_eq]
    split
    · rw [List.getElem?_eq_getElem hlen]
      simp
    · simp
  · intro hhost h
    rw [defaultHostname_eq, if_pos hhost, (hs h).2]
    rfl
  · intro hhost h
    rw [defaultHostname_eq, if_pos hhost, (hp h).2]
    rfl
  · intro hhost
    rw [defaultHostname_eq, if_neg hhost]
  · intro r clusterID platform domain hv hi hg hlabels
    obtain ⟨output, hout, _, _, _, _, hhostname, _⟩ := fillDefaults_fields
      { p with Status := { p.Status with ClusterID := clusterID, ClusterPlatform := platform } }
      domain hlabels (Or.inr hlen)
    refine ⟨output, ?_, ?_, ?_, ?_⟩
    · rw [applyDefaults_eq]
      simp [hv, hi, hg, hout]
    · intro hhost
      have h2 : output.Spec.GitConfig.Hostname = p.Spec.GitConfig.Hostname := by
        simpa [hhost] using hhostname
      exact h2
    · intro hhost h
      have h2 : (split p.Spec.GitConfig.TargetRepo '/')[2]?
          = some output.Spec.GitConfig.Hostname := by
        simpa [hhost] using hhostname
      rw [(hs h).2] at h2
      exact (Option.some.inj h2).symm
    · intro hhost h
      have h2 : (split p.Spec.GitConfig.TargetRepo '/')[2]?
          = some output.Spec.GitConfig.Hostname := by
        simpa [hhost] using hhostname
      rw [(hp h).2] at h2
      exact (Option.some.inj h2).symm

/-- C18 at a concrete input: the accepted repository `https://git.example.com/org/repo` has
five segments, its segment 2 is `git.example.com`, and that is the hostname of the Pattern which
`applyDefaults` returns on the example cluster. -/
theorem accepted_repo_hostname_witness :
    2 < (split examplePattern.Spec.GitConfig.TargetRepo '/').length
      ∧ (split examplePattern.Spec.GitConfig.TargetRepo '/')[2]? = some "git.example.com"
      ∧ ∃ output, (applyDefaults (exampleCluster examplePattern) examplePattern).ret
            = some (none, output)
          ∧ output.Spec.GitConfig.Hostname = "git.example.com" := by
  have h := accepted_repo_hostname examplePattern (by decide)
  obtain ⟨output, hret, _, hhost, _⟩ := h.2.2.2.2.2.2.2 (exampleCluster examplePattern) "4f0c"
    "AWS" "apps.mycluster.blueprints.rhecoeng.com" rfl rfl rfl (by decide)
  exact ⟨h.1, (h.2.2.1 (by decide)).trans (by decide), output, hret,
    (hhost rfl (by decide)).trans (by decide)⟩

/-! ## C20: defaulting twice -/

theorem gitOpsDefaults_idem (c : Option GitOpsConfig) :
    gitOpsDefaults (some (gitOpsDefaults c)) = gitOpsDefaults c := by
  cases c with
  | none => simp [gitOpsDefaults]
  | some c =>
    rcases c with ⟨a, b, d⟩
    by_cases ha : a = "" <;> by_cases hb : b = "" <;> by_cases hd : d = "" <;>
      simp [gitOpsDefaults, ha, hb, hd]

theorem fillDefaults_idem (o output : Pattern) (domain : String)
    (h : fillDefaults o domain = some output) : fillDefaults output domain = some output := by
  unfold fillDefaults at h ⊢
  simp only [setClusterNames_eq, defaultHostname_eq, defaultTargetRevision_eq,
    defaultGitOpsConfig_eq, defaultClusterGroupName_eq] at h ⊢
  cases hname : (split domain '.')[1]? with
  | none => simp [hname] at h
  | some name =>
    simp only [hname, Option.map_some'] at h ⊢
    by_cases hhost : o.Spec.GitConfig.Hostname = ""
    · cases hseg : (split o.Spec.GitConfig.TargetRepo '/')[2]? with
      | none => simp [hhost, hseg] at h
      | some host =>
        simp only [hhost, hseg, if_true, Option.map_some', Option.some.injEq] at h
        subst h
        by_cases hrev : o.Spec.GitConfig.TargetRevision = "" <;>
          by_cases hgrp : o.Spec.ClusterGroupName = "" <;>
          by_cases hh : host = "" <;>
          simp [hseg, hrev, hgrp, hh, gitOpsDefaults_idem]
    · simp only [hhost, if_false, Option.some.injEq] at h
      subst h
      by_cases hrev : o.Spec.GitConfig.TargetRevision = "" <;>
        by_cases hgrp : o.Spec.ClusterGroupName = "" <;>
        simp [hhost, hrev, hgrp, gitOpsDefaults_idem]

/-- C20: under fixed cluster metadata `applyDefaults` is idempotent: when it succeeds on a
Pattern, applying it to its own output issues the same reads, succeeds, and returns that output
again. -/
theorem applyDefaults_idempotent (r : PatternReconciler) (input output : Pattern)
    (h : (applyDefaults r input).ret = some (none, output)) :
    (applyDefaults r output).ret = some (none, output)
      ∧ (applyDefaults r output).calls = (applyDefaults r input).calls := by
  have hcalls := applyDefaults_calls_of_ok r input output h
  rw [applyDefaults_eq] at h
  cases hv : r.clusterVersionID with
  | error e => simp [hv] at h
  | ok clusterID =>
    cases hi : r.infrastructurePlatform with
    | error e => simp [hv, hi] at h
    | ok platform =>
      cases hg : r.ingressDomain with
      | error e => simp [hv, hi, hg] at h
      | ok domain =>
        simp only [hv, hi, hg] at h
        cases hfd : fillDefaults
            { input with Status :=
                { input.Status with ClusterID := clusterID, ClusterPlatform := platform } }
            domain with
        | none => simp [hfd] at h
        | some o =>
          simp [hfd] at h
          subst h
          obtain ⟨clusterName, _, hstatus⟩ := fillDefaults_status _ _ _ hfd
          have hsame : ({ o with Status :=
              { o.Status with ClusterID := clusterID, ClusterPlatform := platform } } : Pattern)
              = o := by
            rcases o with ⟨ometa, ospec, ostatus⟩
            simp only at hstatus
            simp [hstatus]
          have hagain : (applyDefaults r o).ret = some (none, o) := by
            rw [applyDefaults_eq]
            simp only [hv, hi, hg, hsame]
            rw [fillDefaults_idem _ _ _ hfd]
            rfl
          exact ⟨hagain, (applyDefaults_calls_of_ok r o o hagain).trans hcalls.symm⟩

/-- C20 at a concrete input: the qualified example Pattern is what defaulting returns for the
example Pattern, and defaulting returns it again when applied to it. -/
theorem applyDefaults_idempotent_witness :
    (applyDefaults (exampleCluster examplePattern) examplePattern).ret
        = some (none, qualifiedExample examplePattern.ObjectMeta)
      ∧ (applyDefaults (exampleCluster examplePattern)
          (qualifiedExample examplePattern.ObjectMeta)).ret
        = some (none, qualifiedExample examplePattern.ObjectMeta) :=
  ⟨by decide,
   (applyDefaults_idempotent (exampleCluster examplePattern) examplePattern
      (qualifiedExample examplePattern.ObjectMeta) (by decide)).1⟩

end PatternController
